import Mathlib

/-!
Shallow embedding of the ZEngine procedural world-generation core
(`world/generator.py`, `world/territory.py`).

Modelling conventions:
* Python integers are `Int`.  Python `//` and `%` are floor division and
  floor remainder; every divisor used by the source (2, 4, 8, the chunk
  edge length 20) is positive, and for positive divisors floor division
  coincides with Euclidean division, so we use `Int.ediv` / `Int.emod`.
* A `random.Random(seed)` instance is modelled as the seed together with a
  call counter: the ambient family `draws : Int → Nat → Nat` gives the raw
  value backing the n-th library call made by the generator seeded with
  `seed`.  Each call (`randint`, `random`, `choice`, `choices`) consumes one
  counter step and is a deterministic function of (seed, counter) — the
  abstraction of CPython's Mersenne Twister that the claims need.
  `random()` values are rationals `k / 2^53`, matching CPython's
  53-bit floats in `[0,1)`; float table constants become rationals.
* `hash` on an int triple and `hash` on the territory tuple
  `(seed, "macro_region", mx, my)` are uninterpreted deterministic
  functions supplied in the same ambient structure, as is the tcod
  simplex-noise sample (a function of noise seed and chunk coordinate).
* Python dicts are association lists with insert-overwrite semantics
  (`dictInsert` prepends, `dictGet` takes the first hit = the last write).
-/

namespace ZEngine

/-- Ambient deterministic sources external to the generator: the per-seed
random streams, the two tuple-hash shapes the source uses, and the
simplex-noise sample field. -/
structure Ext where
  draws : Int → Nat → Nat
  pyHash3 : Int → Int → Int → Int
  pyHashRegion : Int → Int → Int → Int
  noise : Int → Int → Int → ℚ

/-- `random.Random(s).random()` at call-counter `n`: a 53-bit fraction in `[0,1)`. -/
def pyRandom (E : Ext) (s : Int) (n : Nat) : ℚ :=
  ((E.draws s n % 2 ^ 53 : ℕ) : ℚ) / (2 ^ 53 : ℚ)

/-- `random.Random(s).randint(lo, hi)` at call-counter `n`; the source only
calls it with `lo ≤ hi`. -/
def pyRandint (E : Ext) (s : Int) (n : Nat) (lo hi : Int) : Int :=
  lo + ((E.draws s n : Int) % (hi - lo + 1))

/-- `random.Random(s).choice(l)` at call-counter `n`; the source only calls
it on non-empty lists, so the default is never used there. -/
def pyChoice {α : Type} (E : Ext) (s : Int) (n : Nat) (l : List α) (dflt : α) : α :=
  l.getD (E.draws s n % l.length) dflt

/-- Cumulative sums of a weight list (CPython `itertools.accumulate`). -/
def cumWeights : List ℚ → ℚ → List ℚ
  | [], _ => []
  | w :: ws, acc => (acc + w) :: cumWeights ws (acc + w)

/-- `bisect.bisect_right`: number of cumulative weights `≤ r`. -/
def bisectRight : List ℚ → ℚ → Nat
  | [], _ => 0
  | c :: cs, r => if r < c then 0 else 1 + bisectRight cs r

/-- `random.Random(s).choices(pop, weights, k=1)[0]` at call-counter `n`:
one `random()` draw scaled by the total weight, located in the cumulative
weight list with the upper index clamped to `len(pop) - 1`. -/
def pyChoicesW (E : Ext) (s : Int) (n : Nat) (pop : List String) (weights : List ℚ) : String :=
  let cum := cumWeights weights 0
  let total := cum.getLastD 0
  let r := pyRandom E s n * total
  pop.getD (min (bisectRight cum r) (pop.length - 1)) ""

/-- Python dict lookup over the association-list model (first hit wins,
i.e. the most recent insertion). -/
def dictGet {κ α : Type} [DecidableEq κ] (d : List (κ × α)) (k : κ) : Option α :=
  match d with
  | [] => none
  | (k', v) :: rest => if k = k' then some v else dictGet rest k

/-- Python dict insert / overwrite. -/
def dictInsert {κ α : Type} [DecidableEq κ] (d : List (κ × α)) (k : κ) (v : α) :
    List (κ × α) :=
  (k, v) :: d

/-- Python `range(start, stop, step)` for `step ∈ {1, -1}` as used by the
road-stitching loops. -/
def pyRange (start stop step : Int) : List Int :=
  (List.range (if step = 1 then (stop - start).toNat else (start - stop).toNat)).map
    (fun i => start + step * i)

/-! ## Data model (`engine/data_loader.py` schemas used by generation) -/

/-- Biome definition (`BiomeDef`).  Display colors and ambient modifier
blueprints are carried by the loader but never read by generation. -/
structure BiomeDef where
  id : String
  name : String
  temp_range : ℚ × ℚ
  hum_range : ℚ × ℚ
  tree_density : ℚ := 0
  grass_density : ℚ := 0
  water_density : ℚ := 0
  rubble_density : ℚ := 0
  deriving DecidableEq

/-- A relative spawn directive carried by a module blueprint (the dict
fields the generator reads and rewrites: kind, optional content id, and
the local coordinates it offsets). -/
structure Spawn where
  stype : String
  sid : Option String := none
  lx : Int
  ly : Int
  deriving DecidableEq

/-- Settlement module blueprint (`ModuleDef`).  The tile map is kept as its
list of lines (the source stores one string and splits it on use). -/
structure ModuleDef where
  id : String
  name : String
  map : List String
  spawns : List Spawn := []
  deriving DecidableEq

/-- One creature entry of a biome population table. -/
structure PopEntry where
  id : String
  weight : Int
  deriving DecidableEq

/-- A queued point-of-light rumor. -/
structure Rumor where
  id : String
  name : String
  pol_type : String
  significance : Int
  biome_requirement : Option String := none
  deriving DecidableEq

/-- Read-only content tables supplied at construction. -/
structure Tables where
  biomes : List BiomeDef
  modules : List (String × ModuleDef)
  population : List (String × List PopEntry)

/-! ## Territory Manager (`world/territory.py`) -/

structure TerritoryNode where
  id : String
  chunk_x : Int
  chunk_y : Int
  poi_type : String
  faction_id : String
  deriving DecidableEq

/-- `TerritoryManager.MACRO_REGION_SIZE`. -/
def MACRO_REGION_SIZE : Int := 8

/-- The five global faction identifiers built in the constructor. -/
def factions : List String :=
  (List.range 5).map (fun i => "faction_" ++ toString (i + 1))

/-- Persistent capture overrides keyed by chunk coordinate. -/
abbrev Overrides := List ((Int × Int) × TerritoryNode)

/-- `TerritoryManager._generate_node_for_region`. -/
def generateNodeForRegion (E : Ext) (seed mx my : Int) : TerritoryNode :=
  let s := E.pyHashRegion seed mx my
  let cx := mx * MACRO_REGION_SIZE + pyRandint E s 0 2 5
  let cy := my * MACRO_REGION_SIZE + pyRandint E s 1 2 5
  let poi_type :=
    pyChoicesW E s 2 ["settlement", "dungeon", "encampment"] [3/10, 4/10, 3/10]
  let faction_id := pyChoice E s 3 factions ""
  { id := "node_" ++ toString mx ++ "_" ++ toString my
    chunk_x := cx, chunk_y := cy, poi_type := poi_type, faction_id := faction_id }

/-- `TerritoryManager.get_node_at`. -/
def getNodeAt (E : Ext) (seed : Int) (ov : Overrides) (cx cy : Int) :
    Option TerritoryNode :=
  match dictGet ov (cx, cy) with
  | some n => some n
  | none =>
    let node := generateNodeForRegion E seed (cx / MACRO_REGION_SIZE) (cy / MACRO_REGION_SIZE)
    if node.chunk_x = cx ∧ node.chunk_y = cy then some node else none

/-- `TerritoryManager.get_controlling_faction`. -/
def getControllingFaction (E : Ext) (seed : Int) (ov : Overrides) (cx cy : Int) :
    String :=
  let node := generateNodeForRegion E seed (cx / MACRO_REGION_SIZE) (cy / MACRO_REGION_SIZE)
  match dictGet ov (node.chunk_x, node.chunk_y) with
  | some o => o.faction_id
  | none => node.faction_id

/-- `TerritoryManager.capture_node`; returns the success flag and the
updated override table. -/
def captureNode (E : Ext) (seed : Int) (ov : Overrides) (cx cy : Int)
    (new_faction_id : String) : Bool × Overrides :=
  match getNodeAt E seed ov cx cy with
  | none => (false, ov)
  | some node =>
    (true, dictInsert ov (cx, cy)
      { id := node.id, chunk_x := node.chunk_x, chunk_y := node.chunk_y
        poi_type := node.poi_type, faction_id := new_faction_id })

/-! ## Biome Engine (`WorldBiomeEngine`) -/

/-- The range test of `get_biome`: both the temperature and the humidity
ranges of the biome contain the normalised noise samples. -/
def biomeEligible (t h : ℚ) (b : BiomeDef) : Prop :=
  b.temp_range.1 ≤ t ∧ t ≤ b.temp_range.2 ∧ b.hum_range.1 ≤ h ∧ h ≤ b.hum_range.2

instance (t h : ℚ) (b : BiomeDef) : Decidable (biomeEligible t h b) := by
  unfold biomeEligible; infer_instance

/-- `WorldBiomeEngine.get_biome`, first scan: linearly search the biome
table for a range match, skipping the default `"plains"` entry. -/
def scanBiomes (t h : ℚ) : List BiomeDef → Option BiomeDef
  | [] => none
  | b :: rest =>
    if b.id = "plains" then scanBiomes t h rest
    else if biomeEligible t h b then some b
    else scanBiomes t h rest

/-- `WorldBiomeEngine.get_biome`, second scan: fall back to the first
`"plains"` entry. -/
def findPlains : List BiomeDef → Option BiomeDef
  | [] => none
  | b :: rest => if b.id = "plains" then some b else findPlains rest

/-- `WorldBiomeEngine.get_biome`.  The temperature field is the simplex
noise seeded with the world seed, the humidity field with `seed + 12345`;
both samples are normalised from `[-1,1]` to `[0,1]`.  The result is
`none` exactly when the biome table is empty, the one situation where the
source's final `self.biomes[0]` raises. -/
def getBiome (E : Ext) (seed : Int) (biomes : List BiomeDef) (chunk_x chunk_y : Int) :
    Option BiomeDef :=
  let t_val := (E.noise seed chunk_x chunk_y + 1) / 2
  let h_val := (E.noise (seed + 12345) chunk_x chunk_y + 1) / 2
  match scanBiomes t_val h_val biomes with
  | some b => some b
  | none =>
    match findPlains biomes with
    | some b => some b
    | none => biomes.head?

/-! ## BSP Dungeon Generator (`BSPDungeonGenerator`) -/

structure Rect where
  x : Int
  y : Int
  w : Int
  h : Int
  deriving DecidableEq

/-- The split tree built by `_split`: leaves are unsplit partitions. -/
inductive BSPTree where
  | leaf (rect : Rect)
  | node (rect : Rect) (left right : BSPTree)

/-- The same tree after `_create_rooms`, with the carved room at each leaf
(`BSPNode.room`). -/
inductive RoomTree where
  | leaf (room : Rect)
  | node (left right : RoomTree)

abbrev Tiles := List (List String)

/-- Grid read at integer coordinates (out-of-range reads only occur in
specifications, never in the carving code, which guards its writes). -/
def tileAt (tiles : Tiles) (x y : Int) : String :=
  (tiles.getD y.toNat []).getD x.toNat "wall"

/-- Bounds-guarded single-tile write `self.tiles[cy][cx] = "floor"`. -/
def setFloor (width height : Int) (tiles : Tiles) (cx cy : Int) : Tiles :=
  if 0 ≤ cx ∧ cx < width ∧ 0 ≤ cy ∧ cy < height then
    tiles.set cy.toNat ((tiles.getD cy.toNat []).set cx.toNat "floor")
  else tiles

/-- The split-axis decision of `_split`: one coin flip, overridden toward
the longer dimension when the aspect ratio passes 1.25 (the float
comparison `rect.w > 1.25 * rect.h` is the exact integer comparison
`4 * rect.w > 5 * rect.h`). -/
def splitDir (E : Ext) (s : Int) (ctr : Nat) (rect : Rect) : Bool :=
  let coin := pyChoice E s ctr [true, false] true
  if 4 * rect.w > 5 * rect.h then false
  else if 4 * rect.h > 5 * rect.w then true
  else coin

/-- `BSPDungeonGenerator._split`, threading the RNG call counter.
`iterations` is the remaining recursion depth. -/
def bspSplit (E : Ext) (s : Int) (min_room_size : Int) :
    Nat → Rect → Nat → BSPTree × Nat
  | 0, rect, ctr => (.leaf rect, ctr)
  | iterations + 1, rect, ctr =>
    let split_horizontal := splitDir E s ctr rect
    let max_split := (if split_horizontal then rect.h else rect.w) - min_room_size
    if max_split ≤ min_room_size then (.leaf rect, ctr + 1)
    else
      let split := pyRandint E s (ctr + 1) min_room_size max_split
      let (lrect, rrect) :=
        if split_horizontal then
          (Rect.mk rect.x rect.y rect.w split,
           Rect.mk rect.x (rect.y + split) rect.w (rect.h - split))
        else
          (Rect.mk rect.x rect.y split rect.h,
           Rect.mk (rect.x + split) rect.y (rect.w - split) rect.h)
      let (lt, ctr₁) := bspSplit E s min_room_size iterations lrect (ctr + 2)
      let (rt, ctr₂) := bspSplit E s min_room_size iterations rrect ctr₁
      (.node rect lt rt, ctr₂)

/-- Carve one room's cells (`_create_rooms` inner double loop). -/
def carveRoom (width height : Int) (room : Rect) (tiles : Tiles) : Tiles :=
  (List.range room.h.toNat).foldl
    (fun t (i : Nat) =>
      (List.range room.w.toNat).foldl
        (fun t' (j : Nat) =>
          setFloor width height t' (room.x + (j : Int)) (room.y + (i : Int))) t)
    tiles

/-- The leaf body of `_create_rooms`: draw the paddings, clamp the room
dimensions to a minimum of 3, and draw the in-leaf offsets. -/
def leafRoom (E : Ext) (s : Int) (rect : Rect) (ctr : Nat) : Rect × Nat :=
  let pad_x := pyRandint E s ctr 1 2
  let pad_y := pyRandint E s (ctr + 1) 1 2
  let w := max 3 (rect.w - 2 * pad_x)
  let h := max 3 (rect.h - 2 * pad_y)
  let x_range := rect.w - w - 1
  let y_range := rect.h - h - 1
  let (xoff, ctr₁) :=
    if x_range > 1 then (pyRandint E s (ctr + 2) 1 x_range, ctr + 3) else (1, ctr + 2)
  let (yoff, ctr₂) :=
    if y_range > 1 then (pyRandint E s ctr₁ 1 y_range, ctr₁ + 1) else (1, ctr₁)
  (Rect.mk (rect.x + xoff) (rect.y + yoff) w h, ctr₂)

/-- `BSPDungeonGenerator._create_rooms`: returns the room-annotated tree,
the updated RNG counter, tiles, and the `self.rooms` accumulator (rooms
appended in leaf-visit order). -/
def bspCreateRooms (E : Ext) (s : Int) (width height : Int) :
    BSPTree → Nat → Tiles → List Rect → RoomTree × Nat × Tiles × List Rect
  | .leaf rect, ctr, tiles, rooms =>
    let (room, ctr₂) := leafRoom E s rect ctr
    (.leaf room, ctr₂, carveRoom width height room tiles, rooms ++ [room])
  | .node _ left right, ctr, tiles, rooms =>
    let (lt, ctr₁, tiles₁, rooms₁) := bspCreateRooms E s width height left ctr tiles rooms
    let (rt, ctr₂, tiles₂, rooms₂) := bspCreateRooms E s width height right ctr₁ tiles₁ rooms₁
    (.node lt rt, ctr₂, tiles₂, rooms₂)

/-- `_carve_h_corridor`. -/
def carveHCorridor (width height : Int) (x1 x2 y : Int) (tiles : Tiles) : Tiles :=
  (List.range (max x1 x2 - min x1 x2 + 1).toNat).foldl
    (fun t i => setFloor width height t (min x1 x2 + i) y) tiles

/-- `_carve_v_corridor`. -/
def carveVCorridor (width height : Int) (y1 y2 x : Int) (tiles : Tiles) : Tiles :=
  (List.range (max y1 y2 - min y1 y2 + 1).toNat).foldl
    (fun t i => setFloor width height t x (min y1 y2 + i)) tiles

/-- `BSPDungeonGenerator._connect_rooms`: bottom-up corridor carving; every
subtree returns its representative room (children are always both present
in the tree model, so the `left_room or right_room` fallback of the source
collapses to the leaf case). -/
def bspConnectRooms (E : Ext) (s : Int) (width height : Int) :
    RoomTree → Nat → Tiles → Rect × Nat × Tiles
  | .leaf room, ctr, tiles => (room, ctr, tiles)
  | .node left right, ctr, tiles =>
    let (left_room, ctr₁, tiles₁) := bspConnectRooms E s width height left ctr tiles
    let (right_room, ctr₂, tiles₂) := bspConnectRooms E s width height right ctr₁ tiles₁
    let lx := left_room.x + left_room.w / 2
    let ly := left_room.y + left_room.h / 2
    let rx := right_room.x + right_room.w / 2
    let ry := right_room.y + right_room.h / 2
    let coin := pyChoice E s ctr₂ [true, false] true
    let tiles₃ :=
      if coin then
        carveVCorridor width height ly ry rx (carveHCorridor width height lx rx ly tiles₂)
      else
        carveHCorridor width height lx rx ry (carveVCorridor width height ly ry lx tiles₂)
    let rep := pyChoice E s (ctr₂ + 1) [left_room, right_room] left_room
    (rep, ctr₂ + 2, tiles₃)

/-- The dungeon layout dict returned by `generate()`. -/
structure Dungeon where
  dtype : String
  rooms : List Rect
  tiles : Tiles
  deriving DecidableEq

/-- `BSPDungeonGenerator(width, height, seed).generate()` with the default
`min_room_size = 6` and recursion depth 4. -/
def bspGenerate (E : Ext) (width height : Int) (seed : Int) : Dungeon :=
  let init : Tiles := List.replicate height.toNat (List.replicate width.toNat "wall")
  let (tree, ctr₁) := bspSplit E seed 6 4 (Rect.mk 0 0 width height) 0
  let (rtree, ctr₂, tiles₁, rooms) := bspCreateRooms E seed width height tree ctr₁ init []
  let (_, _, tiles₂) := bspConnectRooms E seed width height rtree ctr₂ tiles₁
  { dtype := "dungeon", rooms := rooms, tiles := tiles₂ }

/-! ## Settlement Planner (`SettlementPlanner`) -/

/-- Width of a module's tile map: the length of its first line
(`len(l_lines[0])`). -/
def moduleW (m : ModuleDef) : Int := ((m.map.headD "").length : Int)

/-- Height of a module's tile map (`len(l_lines)`). -/
def moduleH (m : ModuleDef) : Int := (m.map.length : Int)

/-- `SettlementPlanner._rects_overlap`. -/
def rectsOverlap (x1 y1 w1 h1 x2 y2 w2 h2 : Int) : Bool :=
  if x1 + w1 ≤ x2 ∨ x2 + w2 ≤ x1 ∨ y1 + h1 ≤ y2 ∨ y2 + h2 ≤ y1 then false else true

/-- The planner's overlap scan of a candidate spot against all placements
made so far. -/
def overlapAny (placements : List (ModuleDef × Int × Int)) (nx ny lw lh : Int) : Bool :=
  placements.any (fun p => rectsOverlap nx ny lw lh p.2.1 p.2.2 (moduleW p.1) (moduleH p.1))

/-- The planner's inner `for _ in range(10)` retry loop for one limb:
returns the accepted spot (if any) and the advanced RNG counter. -/
def tryPlaceLimb (E : Ext) (s : Int) (placements : List (ModuleDef × Int × Int))
    (hx hy lw lh chunk_size : Int) : Nat → Nat → Option (Int × Int) × Nat
  | 0, ctr => (none, ctr)
  | attempts + 1, ctr =>
    let nx := hx + pyRandint E s ctr (-5) 5
    let ny := hy + pyRandint E s (ctr + 1) (-5) 5
    if 0 ≤ nx ∧ nx < chunk_size - lw ∧ 0 ≤ ny ∧ ny < chunk_size - lh then
      if overlapAny placements nx ny lw lh then
        tryPlaceLimb E s placements hx hy lw lh chunk_size attempts (ctr + 2)
      else (some (nx, ny), ctr + 2)
    else tryPlaceLimb E s placements hx hy lw lh chunk_size attempts (ctr + 2)

/-- The planner's outer `for _ in range(limb_count)` loop. -/
def placeLimbs (E : Ext) (mods : List (String × ModuleDef)) (s : Int)
    (hx hy chunk_size : Int) :
    Nat → Nat → List (ModuleDef × Int × Int) → List (ModuleDef × Int × Int) × Nat
  | 0, ctr, placements => (placements, ctr)
  | k + 1, ctr, placements =>
    let lid := pyChoice E s ctr ["small_room", "garden_unit"] ""
    match dictGet mods lid with
    | none => placeLimbs E mods s hx hy chunk_size k (ctr + 1) placements
    | some limb =>
      let lw := moduleW limb
      let lh := moduleH limb
      let (spot, ctr') := tryPlaceLimb E s placements hx hy lw lh chunk_size 10 (ctr + 1)
      match spot with
      | some (nx, ny) =>
        placeLimbs E mods s hx hy chunk_size k ctr' (placements ++ [(limb, nx, ny)])
      | none => placeLimbs E mods s hx hy chunk_size k ctr' placements

/-- `SettlementPlanner.plan_settlement`.  The planner instance is seeded
once at `ChunkManager` construction, so its RNG counter `ctr` is threaded
across calls. -/
def planSettlement (E : Ext) (mods : List (String × ModuleDef)) (seed : Int)
    (ctr : Nat) (chunk_size : Int) : List (ModuleDef × Int × Int) × Nat :=
  match dictGet mods "tavern_heart" with
  | none => ([], ctr)
  | some heart =>
    let hx := (chunk_size - moduleW heart) / 2
    let hy := (chunk_size - moduleH heart) / 2
    let limb_count := pyRandint E seed ctr 1 2
    placeLimbs E mods seed hx hy chunk_size limb_count.toNat (ctr + 1) [(heart, hx, hy)]

/-! ## Chunk Manager (`ChunkManager`) -/

/-- A generated chunk record (the dict built by `_generate_chunk`).
Optional fields model dict keys only present on some paths. -/
structure Chunk where
  coords : Int × Int
  biome : BiomeDef
  population : List PopEntry
  pol : Option Rumor
  terrain : String
  faction_id : String
  is_spawned : Bool
  bespoke_tiles : Option (List ((Int × Int) × String)) := none
  spawns : Option (List Spawn) := none
  roads : Option (List (Int × Int)) := none
  dungeon_layout : Option Dungeon := none
  deriving DecidableEq

/-- Mutable `ChunkManager` state: the chunk cache, the rumor queue, and
the settlement planner's RNG counter (its stream is seeded with the world
seed at construction). -/
structure CMState where
  cache : List ((Int × Int) × Chunk)
  rumor_queue : List Rumor
  planner_ctr : Nat

/-- `ChunkManager.add_rumor`. -/
def addRumor (st : CMState) (r : Rumor) : CMState :=
  { st with rumor_queue := st.rumor_queue ++ [r] }

/-- Stable insertion of a rumor into a significance-descending list:
the building block of Python's stable `sort(key=..., reverse=True)`. -/
def insertDesc (r : Rumor) : List Rumor → List Rumor
  | [] => [r]
  | x :: xs => if x.significance < r.significance then r :: x :: xs else x :: insertDesc r xs

/-- `rumor_queue.sort(key=lambda r: r.significance, reverse=True)`:
a stable descending sort by significance. -/
def sortRumorsDesc : List Rumor → List Rumor
  | [] => []
  | x :: xs => insertDesc x (sortRumorsDesc xs)

/-- `ChunkManager.get_next_rumor`: sort descending, pop the front; `none`
on an empty queue.  Also used verbatim by the in-chunk rumor resolution of
`_generate_chunk`. -/
def getNextRumor (queue : List Rumor) : Option (Rumor × List Rumor) :=
  match sortRumorsDesc queue with
  | [] => none
  | r :: rest => some (r, rest)

/-- Character-to-terrain mapping of the settlement stamping loop
(`'#'` wall, `'~'` water, `'+'` door floor, anything else floor). -/
def charTile (c : Char) : String :=
  if c = '#' then "wall" else if c = '~' then "water" else "floor"

/-- Stamp one line of a module map at row `ty`, columns starting at `mx`:
updates the bespoke tile dict, the last-seen door position, and the spawn
list (each `'+'` appends a door spawn). -/
def stampLine (mx ty : Int) (line : List Char)
    (acc : List ((Int × Int) × String) × (Int × Int) × List Spawn) :
    List ((Int × Int) × String) × (Int × Int) × List Spawn :=
  line.enum.foldl
    (fun (acc : List ((Int × Int) × String) × (Int × Int) × List Spawn) p =>
      let tx := mx + (p.1 : Int)
      let (bespoke, door, spawns) := acc
      if p.2 = '+' then
        (dictInsert bespoke (tx, ty) "floor", (tx, ty),
         spawns ++ [{ stype := "door", lx := tx, ly := ty }])
      else (dictInsert bespoke (tx, ty) (charTile p.2), door, spawns))
    acc

/-- Stamp a whole placed module and stitch its door road: the per-module
body of the settlement branch of `_generate_chunk`. -/
def stampModule (mid : Int) (mdef : ModuleDef) (mx my : Int)
    (acc : List ((Int × Int) × String) × List Spawn × List (Int × Int)) :
    List ((Int × Int) × String) × List Spawn × List (Int × Int) :=
  let (bespoke₀, spawns₀, roads₀) := acc
  let stamped :=
    mdef.map.enum.foldl
      (fun st p => stampLine mx (my + (p.1 : Int)) p.2.data st)
      (bespoke₀, ((-1 : Int), (-1 : Int)), spawns₀)
  let (bespoke, door, spawns₁) := stamped
  let spawns₂ :=
    spawns₁ ++ mdef.spawns.map (fun s => { s with lx := s.lx + mx, ly := s.ly + my })
  if door.1 ≠ -1 then
    let step₁ : Int := if mid > door.1 then 1 else -1
    let roads₁ := roads₀ ++ (pyRange door.1 (mid + step₁) step₁).map (fun rx => (rx, door.2))
    let step₂ : Int := if mid > door.2 then 1 else -1
    let roads₂ := roads₁ ++ (pyRange door.2 (mid + step₂) step₂).map (fun ry => (mid, ry))
    (bespoke, spawns₂, roads₂)
  else (bespoke, spawns₂, roads₀)

/-- The fallback stochastic POI list used when no territory manager is
configured (`poi_chunks` of `_generate_chunk`, one 4×4 region). -/
def fallbackPoiChunks (E : Ext) (seed rx ry : Int) : List (Int × Int) :=
  let rs := E.pyHash3 rx ry seed
  let poi_count := pyRandint E rs 0 1 2
  (List.range poi_count.toNat).map (fun i =>
    (rx * 4 + pyRandint E rs (1 + 2 * i) 0 3, ry * 4 + pyRandint E rs (2 + 2 * i) 0 3))

/-- The four-neighbor road-connectivity scan of `_generate_chunk`
(section 2): threads the chunk RNG counter, consuming one `random()` draw
per POI neighbor. -/
def roadScan (E : Ext) (seed chunk_seed : Int) (terr : Option (Int × Overrides))
    (cs x y : Int) :
    List (Int × Int) → Nat → List (Int × Int) → List (Int × Int) × Nat
  | [], ctr, roads => (roads, ctr)
  | (dx, dy) :: dirs, ctr, roads =>
    let nx := x + dx
    let ny := y + dy
    let is_neighbor_poi :=
      match terr with
      | some (tseed, ov) => (getNodeAt E tseed ov nx ny).isSome
      | none => decide ((nx, ny) ∈ fallbackPoiChunks E seed (nx / 4) (ny / 4))
    if is_neighbor_poi then
      let mid := cs / 2
      let seg : List (Int × Int) :=
        if dx = -1 then (pyRange 0 (mid + 1) 1).map (fun lx => (lx, mid))
        else if dx = 1 then (pyRange mid cs 1).map (fun lx => (lx, mid))
        else if dy = -1 then (pyRange 0 (mid + 1) 1).map (fun ly => (mid, ly))
        else (pyRange mid cs 1).map (fun ly => (mid, ly))
      let roads' := if pyRandom E chunk_seed ctr < 1/2 then roads ++ seg else roads
      roadScan E seed chunk_seed terr cs x y dirs (ctr + 1) roads'
    else roadScan E seed chunk_seed terr cs x y dirs ctr roads

/-- `ChunkManager._generate_chunk`.  Returns the chunk record together
with the updated rumor queue and planner counter; `none` exactly when the
biome table is empty (where the source raises inside `get_biome`). -/
def generateChunk (E : Ext) (T : Tables) (seed cs : Int)
    (terr : Option (Int × Overrides)) (queue : List Rumor) (pctr : Nat)
    (x y : Int) : Option (Chunk × List Rumor × Nat) :=
  let chunk_seed := E.pyHash3 x y seed
  match getBiome E seed T.biomes x y with
  | none => none
  | some biome =>
    let biome_pop := (dictGet T.population biome.id).getD []
    let faction₀ :=
      match terr with
      | some (tseed, ov) => getControllingFaction E tseed ov x y
      | none => "warband_" ++ toString x ++ "_" ++ toString y
    let territory_node :=
      match terr with
      | some (tseed, ov) => getNodeAt E tseed ov x y
      | none => none
    let poi_chunks :=
      match terr with
      | some _ => []
      | none => fallbackPoiChunks E seed (x / 4) (y / 4)
    let is_poi := territory_node.isSome || (terr.isNone && decide ((x, y) ∈ poi_chunks))
    let poi_type :=
      match territory_node with
      | some n => n.poi_type
      | none => "settlement"
    if is_poi ∧ poi_type = "settlement" then
      let faction :=
        match territory_node with
        | some n => n.faction_id
        | none =>
          let a := poi_chunks.headD (0, 0)
          "village_" ++ toString a.1 ++ "_" ++ toString a.2
      let (planned, pctr') := planSettlement E T.modules seed pctr cs
      let mid := cs / 2
      let (bespoke, spawns, roads) :=
        planned.foldl (fun acc p => stampModule mid p.1 p.2.1 p.2.2 acc) ([], [], [])
      some ({ coords := (x, y), biome := biome, population := biome_pop, pol := none
              terrain := "bespoke", faction_id := faction, is_spawned := false
              bespoke_tiles := some bespoke, spawns := some spawns
              roads := some roads, dungeon_layout := none }, queue, pctr')
    else if is_poi ∧ poi_type = "dungeon" then
      some ({ coords := (x, y), biome := biome, population := biome_pop, pol := none
              terrain := "structured_dungeon", faction_id := faction₀, is_spawned := false
              dungeon_layout := some (bspGenerate E 40 40 chunk_seed) }, queue, pctr)
    else if is_poi ∧ poi_type = "encampment" then
      some ({ coords := (x, y), biome := biome, population := biome_pop, pol := none
              terrain := "wilderness", faction_id := faction₀, is_spawned := false
              bespoke_tiles := some [((cs / 2, cs / 2), "floor")]
              spawns := some [{ stype := "prop", sid := some "campfire", lx := cs / 2, ly := cs / 2 }]
              roads := some [] }, queue, pctr)
    else
      let (roads, ctr₁) :=
        roadScan E seed chunk_seed terr cs x y [(-1, 0), (1, 0), (0, -1), (0, 1)] 0 []
      let base : Chunk :=
        { coords := (x, y), biome := biome, population := biome_pop, pol := none
          terrain := "wilderness", faction_id := faction₀, is_spawned := false
          roads := some roads }
      if queue ≠ [] ∧ pyRandom E chunk_seed ctr₁ < 1/10 then
        match getNextRumor queue with
        | none => some (base, queue, pctr)
        | some (resolved, rest) =>
          some ({ base with
                  pol := some resolved
                  terrain := "structured_" ++ resolved.pol_type
                  dungeon_layout :=
                    if resolved.pol_type = "dungeon" then
                      some (bspGenerate E 40 40 chunk_seed)
                    else none }, rest, pctr)
      else some (base, queue, pctr)

/-- `ChunkManager.get_chunk`: serve from the cache or generate and cache. -/
def getChunk (E : Ext) (T : Tables) (seed cs : Int) (terr : Option (Int × Overrides))
    (st : CMState) (x y : Int) : Option (Chunk × CMState) :=
  match dictGet st.cache (x, y) with
  | some c => some (c, st)
  | none =>
    match generateChunk E T seed cs terr st.rumor_queue st.planner_ctr x y with
    | none => none
    | some (c, q', p') =>
      some (c, { cache := dictInsert st.cache (x, y) c, rumor_queue := q', planner_ctr := p' })

/-- `ChunkManager.get_tile`: the strict tile-precedence lookup. -/
def getTile (E : Ext) (T : Tables) (seed cs : Int) (terr : Option (Int × Overrides))
    (st : CMState) (gx gy : Int) : Option (String × CMState) :=
  match getChunk E T seed cs terr st (gx / cs) (gy / cs) with
  | none => none
  | some (chunk, st') =>
    let lx := gx % cs
    let ly := gy % cs
    let bespokeHit :=
      if chunk.terrain = "bespoke" then dictGet (chunk.bespoke_tiles.getD []) (lx, ly)
      else none
    match bespokeHit with
    | some t => some (t, st')
    | none =>
      let dungeonHit :=
        match chunk.dungeon_layout with
        | some d =>
          if 0 ≤ ly ∧ ly < (d.tiles.length : Int) ∧
             0 ≤ lx ∧ lx < ((d.tiles.headD []).length : Int) then
            some (tileAt d.tiles lx ly)
          else none
        | none => none
      match dungeonHit with
      | some t => some (t, st')
      | none =>
        if (lx, ly) ∈ chunk.roads.getD [] then some ("floor", st')
        else
          let roll := pyRandom E (E.pyHash3 gx gy seed) 0
          let b := chunk.biome
          if roll < b.water_density then some ("water", st')
          else if roll < b.water_density + b.tree_density then some ("tree", st')
          else if roll < b.water_density + b.tree_density + b.rubble_density then
            some ("wall", st')
          else if roll < b.water_density + b.tree_density + b.rubble_density +
              b.grass_density then some ("grass", st')
          else some ("floor", st')

/-! ## Concrete instantiations used by witnesses and counterexamples

Concrete ambient environments (a choice of raw random streams, tuple
hashes and noise field) and small content tables, used to evaluate the
embedded code on closed inputs. -/

/-- Ambient environment A: all raw draws are 0 except the seventh draw of
the stream seeded 0 (the world-seed stream shared by the settlement
planner), which is 1. -/
def envA : Ext :=
  { draws := fun s n => if s = 0 ∧ n = 6 then 1 else 0
    pyHash3 := fun a b c => a * 1000000 + b * 1000 + c
    pyHashRegion := fun _ _ _ => 77
    noise := fun _ _ _ => 0 }

/-- Ambient environment B: all raw draws are 0 except the third draw of
the stream seeded 77 (the macro-region stream), which encodes the
`random()` value 3/4 (so `choices` picks the encampment weight slot). -/
def envB : Ext :=
  { draws := fun s n => if s = 77 ∧ n = 2 then 6755399441055744 else 0
    pyHash3 := fun a b c => a * 1000000 + b * 1000 + c
    pyHashRegion := fun _ _ _ => 77
    noise := fun _ _ _ => 0 }

/-- The default biome, eligible everywhere, with zero feature densities. -/
def plainsDef : BiomeDef :=
  { id := "plains", name := "Plains", temp_range := (0, 1), hum_range := (0, 1) }

/-- A non-default biome eligible everywhere whose water density is 1, so
every procedural roll lands on water. -/
def aquaDef : BiomeDef :=
  { id := "aqua", name := "Aqua", temp_range := (0, 1), hum_range := (0, 1),
    water_density := 1 }

/-- A 2×2 heart module of walls (no door). -/
def tavernHeart : ModuleDef := { id := "tavern_heart", name := "Tavern", map := ["##", "##"] }

/-- A 1×1 wall limb module. -/
def smallRoom : ModuleDef := { id := "small_room", name := "Room", map := ["#"] }

/-- A 1×1 water limb module. -/
def gardenUnit : ModuleDef := { id := "garden_unit", name := "Garden", map := ["~"] }

/-- Content tables with only the default biome. -/
def tblA : Tables :=
  { biomes := [plainsDef]
    modules := [("tavern_heart", tavernHeart), ("small_room", smallRoom),
                ("garden_unit", gardenUnit)]
    population := [] }

/-- Content tables whose first biome is `aquaDef`. -/
def tblB : Tables := { biomes := [aquaDef, plainsDef], modules := tblA.modules, population := [] }

/-- A prefab-typed rumor of middling significance. -/
def rumorPrefab : Rumor := { id := "r1", name := "Cave", pol_type := "prefab", significance := 3 }

/-- A dungeon-typed rumor of significance 1. -/
def rumorLow : Rumor := { id := "a", name := "A", pol_type := "dungeon", significance := 1 }

/-- A dungeon-typed rumor of significance 5. -/
def rumorHigh : Rumor := { id := "b", name := "B", pol_type := "dungeon", significance := 5 }

/-! ## Basic lemmas about the Python RNG model -/

theorem pyRandint_bounds (E : Ext) (s : Int) (n : Nat) (lo hi : Int) (h : lo ≤ hi) :
    lo ≤ pyRandint E s n lo hi ∧ pyRandint E s n lo hi ≤ hi := by
  unfold pyRandint
  have h1 : (0 : Int) < hi - lo + 1 := by omega
  have h2 := Int.emod_nonneg (E.draws s n : Int) (by omega : hi - lo + 1 ≠ 0)
  have h3 := Int.emod_lt_of_pos (E.draws s n : Int) h1
  omega

/-! ## Claim theorems -/

/-- **C6.** `capture_node(x, y, F)` returns true exactly when
`get_node_at(x, y)` is non-null at call time; a false return leaves the
override table unchanged (and the embedded function is total, so no
exception path exists). -/
theorem capture_success_iff_node (E : Ext) (seed : Int) (ov : Overrides)
    (cx cy : Int) (F : String) :
    ((captureNode E seed ov cx cy F).1 = true ↔ (getNodeAt E seed ov cx cy).isSome = true) ∧
    ((captureNode E seed ov cx cy F).1 = false → (captureNode E seed ov cx cy F).2 = ov) := by
  unfold captureNode
  cases h : getNodeAt E seed ov cx cy <;> simp

/-- **C6 witness.** At `(0,0)` of environment A's territory no node exists,
so capture fails and the override table stays empty. -/
theorem capture_success_iff_node_witness :
    (captureNode envA 0 [] 0 0 "f").2 = [] :=
  (capture_success_iff_node envA 0 [] 0 0 "f").2 (by decide)

/-- A generated node's anchor chunk floor-divides back to its own
macro-region. -/
theorem anchor_region (E : Ext) (seed mx my : Int) :
    (generateNodeForRegion E seed mx my).chunk_x / 8 = mx ∧
    (generateNodeForRegion E seed mx my).chunk_y / 8 = my := by
  obtain ⟨h2x, h5x⟩ := pyRandint_bounds E (E.pyHashRegion seed mx my) 0 2 5 (by omega)
  obtain ⟨h2y, h5y⟩ := pyRandint_bounds E (E.pyHashRegion seed mx my) 1 2 5 (by omega)
  have hax : (generateNodeForRegion E seed mx my).chunk_x =
      mx * 8 + pyRandint E (E.pyHashRegion seed mx my) 0 2 5 := rfl
  have hay : (generateNodeForRegion E seed mx my).chunk_y =
      my * 8 + pyRandint E (E.pyHashRegion seed mx my) 1 2 5 := rfl
  constructor <;> [rw [hax]; rw [hay]] <;> omega

/-- With an empty override table, `get_node_at` is the pure anchor test. -/
theorem getNodeAt_nil (E : Ext) (seed cx cy : Int) :
    getNodeAt E seed [] cx cy =
      (if (generateNodeForRegion E seed (cx / 8) (cy / 8)).chunk_x = cx ∧
          (generateNodeForRegion E seed (cx / 8) (cy / 8)).chunk_y = cy then
        some (generateNodeForRegion E seed (cx / 8) (cy / 8))
      else none) := rfl

/-- **C4.** With no captures, the macro-region `(mx, my)` has exactly one
coordinate answering `get_node_at` non-null: the generated anchor, which
lies in the central `[2,5]×[2,5]` sub-square of the 8×8 region; all other
coordinates of the region answer null. -/
theorem territory_region_unique (E : Ext) (seed mx my : Int) :
    getNodeAt E seed [] (generateNodeForRegion E seed mx my).chunk_x
      (generateNodeForRegion E seed mx my).chunk_y = some (generateNodeForRegion E seed mx my) ∧
    ((generateNodeForRegion E seed mx my).chunk_x / 8 = mx ∧
     (generateNodeForRegion E seed mx my).chunk_y / 8 = my) ∧
    (2 ≤ (generateNodeForRegion E seed mx my).chunk_x - 8 * mx ∧
     (generateNodeForRegion E seed mx my).chunk_x - 8 * mx ≤ 5 ∧
     2 ≤ (generateNodeForRegion E seed mx my).chunk_y - 8 * my ∧
     (generateNodeForRegion E seed mx my).chunk_y - 8 * my ≤ 5) ∧
    ∀ cx cy, cx / 8 = mx → cy / 8 = my →
      ¬(cx = (generateNodeForRegion E seed mx my).chunk_x ∧
        cy = (generateNodeForRegion E seed mx my).chunk_y) →
      getNodeAt E seed [] cx cy = none := by
  obtain ⟨h2x, h5x⟩ := pyRandint_bounds E (E.pyHashRegion seed mx my) 0 2 5 (by omega)
  obtain ⟨h2y, h5y⟩ := pyRandint_bounds E (E.pyHashRegion seed mx my) 1 2 5 (by omega)
  have hax : (generateNodeForRegion E seed mx my).chunk_x =
      mx * 8 + pyRandint E (E.pyHashRegion seed mx my) 0 2 5 := rfl
  have hay : (generateNodeForRegion E seed mx my).chunk_y =
      my * 8 + pyRandint E (E.pyHashRegion seed mx my) 1 2 5 := rfl
  obtain ⟨hdx, hdy⟩ := anchor_region E seed mx my
  refine ⟨?_, ⟨hdx, hdy⟩, ?_, ?_⟩
  · rw [getNodeAt_nil, hdx, hdy]
    simp
  · omega
  · intro cx cy h1 h2 hne
    rw [getNodeAt_nil, h1, h2]
    have : ¬((generateNodeForRegion E seed mx my).chunk_x = cx ∧
        (generateNodeForRegion E seed mx my).chunk_y = cy) := by
      intro ⟨u, v⟩; exact hne ⟨u.symm, v.symm⟩
    simp [this]

/-- **C4 witness.** In environment B the region `(0,0)` anchor is `(2,2)`:
querying it yields the node, querying `(3,3)` in the same region yields
null. -/
theorem territory_region_unique_witness :
    getNodeAt envB 0 [] 2 2 = some (generateNodeForRegion envB 0 0 0) ∧
    getNodeAt envB 0 [] 3 3 = none := by
  constructor
  · have h := (territory_region_unique envB 0 0 0).1
    have e1 : (generateNodeForRegion envB 0 0 0).chunk_x = 2 := by decide
    have e2 : (generateNodeForRegion envB 0 0 0).chunk_y = 2 := by decide
    rw [e1, e2] at h
    exact h
  · exact (territory_region_unique envB 0 0 0).2.2.2 3 3 (by decide) (by decide) (by decide)

/-! ## Rumor-queue lemmas -/

theorem insertDesc_perm (r : Rumor) (l : List Rumor) :
    (insertDesc r l).Perm (r :: l) := by
  induction l with
  | nil => simp [insertDesc]
  | cons x xs ih =>
    unfold insertDesc
    split
    · exact List.Perm.refl _
    · exact (ih.cons x).trans (List.Perm.swap r x xs)

theorem sortRumorsDesc_perm (q : List Rumor) : (sortRumorsDesc q).Perm q := by
  induction q with
  | nil => simp [sortRumorsDesc]
  | cons x xs ih => exact (insertDesc_perm x (sortRumorsDesc xs)).trans (ih.cons x)

theorem mem_insertDesc {y r : Rumor} {l : List Rumor} (h : y ∈ insertDesc r l) :
    y = r ∨ y ∈ l := by
  have := (insertDesc_perm r l).mem_iff.mp h
  simpa using this

theorem insertDesc_pairwise (r : Rumor) (l : List Rumor)
    (h : l.Pairwise (fun a b => b.significance ≤ a.significance)) :
    (insertDesc r l).Pairwise (fun a b => b.significance ≤ a.significance) := by
  induction l with
  | nil => simp [insertDesc]
  | cons x xs ih =>
    rw [List.pairwise_cons] at h
    obtain ⟨hx, hxs⟩ := h
    unfold insertDesc
    split
    · rename_i hlt
      refine List.Pairwise.cons ?_ (List.Pairwise.cons hx hxs)
      intro y hy
      simp only [List.mem_cons] at hy
      rcases hy with rfl | hy
      · omega
      · have := hx y hy; omega
    · rename_i hge
      refine List.Pairwise.cons ?_ (ih hxs)
      intro y hy
      rcases mem_insertDesc hy with rfl | hy
      · omega
      · exact hx y hy

theorem sortRumorsDesc_pairwise (q : List Rumor) :
    (sortRumorsDesc q).Pairwise (fun a b => b.significance ≤ a.significance) := by
  induction q with
  | nil => simp [sortRumorsDesc]
  | cons x xs ih => exact insertDesc_pairwise x _ ih

/-- The priority pop delivers a maximal-significance member and the rest of
the queue, up to permutation. -/
theorem getNextRumor_spec (q : List Rumor) (r : Rumor) (rest : List Rumor)
    (h : getNextRumor q = some (r, rest)) :
    r ∈ q ∧ (∀ s ∈ q, s.significance ≤ r.significance) ∧ q.Perm (r :: rest) := by
  unfold getNextRumor at h
  cases hq : sortRumorsDesc q with
  | nil => rw [hq] at h; exact absurd h (by simp)
  | cons x xs =>
    rw [hq] at h
    have hpr : (x, xs) = (r, rest) := Option.some.inj h
    have hx : x = r := congrArg Prod.fst hpr
    have hxs : xs = rest := congrArg Prod.snd hpr
    subst hx; subst hxs
    have hperm : q.Perm (x :: xs) := by
      have := sortRumorsDesc_perm q; rw [hq] at this; exact this.symm
    refine ⟨hperm.symm.mem_iff.mp (List.mem_cons_self x xs), ?_, hperm⟩
    intro s hs
    have hmem := hperm.mem_iff.mp hs
    simp only [List.mem_cons] at hmem
    rcases hmem with rfl | hmem
    · omega
    · have hp := sortRumorsDesc_pairwise q
      rw [hq, List.pairwise_cons] at hp
      exact hp.1 s hmem

theorem getNextRumor_isSome (q : List Rumor) (h : q ≠ []) :
    ∃ r rest, getNextRumor q = some (r, rest) := by
  cases hq : sortRumorsDesc q with
  | nil =>
    have := (sortRumorsDesc_perm q).length_eq
    rw [hq] at this
    cases q with
    | nil => exact absurd rfl h
    | cons a as => simp at this
  | cons x xs =>
    refine ⟨x, xs, ?_⟩
    unfold getNextRumor
    rw [hq]

/-- Case analysis of `_generate_chunk`: generation either fails on an empty
biome table, or produces a chunk that is a settlement (`"bespoke"`), a
dungeon anchor (`"structured_dungeon"`), plain wilderness (also the
encampment case), or a resolved rumor chunk whose terrain is
`"structured_" ++ pol_type` and whose resolution is exactly the priority
pop of the queue. -/
theorem generateChunk_cases (E : Ext) (T : Tables) (seed cs : Int)
    (terr : Option (Int × Overrides)) (q : List Rumor) (pctr : Nat) (x y : Int) :
    generateChunk E T seed cs terr q pctr x y = none ∨
    ∃ c q' p', generateChunk E T seed cs terr q pctr x y = some (c, q', p') ∧
      ((c.pol = none ∧ q' = q ∧
        (c.terrain = "wilderness" ∨ c.terrain = "bespoke" ∨
         c.terrain = "structured_dungeon")) ∨
       (∃ r rest, getNextRumor q = some (r, rest) ∧ c.pol = some r ∧ q' = rest ∧
         c.terrain = "structured_" ++ r.pol_type)) := by
  unfold generateChunk
  cases hb : getBiome E seed T.biomes x y with
  | none => exact Or.inl rfl
  | some biome =>
    right
    simp only []
    split_ifs with h1 h2 h3 h4
    · exact ⟨_, _, _, rfl, Or.inl ⟨rfl, rfl, Or.inr (Or.inl rfl)⟩⟩
    · exact ⟨_, _, _, rfl, Or.inl ⟨rfl, rfl, Or.inr (Or.inr rfl)⟩⟩
    · exact ⟨_, _, _, rfl, Or.inl ⟨rfl, rfl, Or.inl rfl⟩⟩
    · cases hr : getNextRumor q with
      | none =>
        exact ⟨_, _, _, rfl, Or.inl ⟨rfl, rfl, Or.inl rfl⟩⟩
      | some p =>
        obtain ⟨r₀, rest₀⟩ := p
        exact ⟨_, _, _, rfl, Or.inr ⟨r₀, rest₀, rfl, rfl, rfl, rfl⟩⟩
    · exact ⟨_, _, _, rfl, Or.inl ⟨rfl, rfl, Or.inl rfl⟩⟩

/-- **C3.** The priority pop contract: an empty queue yields null; a
non-empty queue yields a queued rumor of maximal significance and removes
exactly it; and whenever `_generate_chunk` resolves a rumor into a chunk,
the resolved rumor and the leftover queue are exactly that priority pop. -/
theorem rumor_priority_pop :
    (getNextRumor [] = none) ∧
    (∀ q : List Rumor, q ≠ [] →
      ∃ r rest, getNextRumor q = some (r, rest) ∧ r ∈ q ∧
        (∀ s ∈ q, s.significance ≤ r.significance) ∧ q.Perm (r :: rest)) ∧
    (∀ (E : Ext) (T : Tables) (seed cs : Int) (terr : Option (Int × Overrides))
        (q : List Rumor) (pctr : Nat) (x y : Int) (c : Chunk) (q' : List Rumor) (p' : Nat),
      generateChunk E T seed cs terr q pctr x y = some (c, q', p') →
      ∀ r, c.pol = some r → getNextRumor q = some (r, q')) := by
  refine ⟨rfl, ?_, ?_⟩
  · intro q hq
    obtain ⟨r, rest, h⟩ := getNextRumor_isSome q hq
    obtain ⟨hm, hmax, hperm⟩ := getNextRumor_spec q r rest h
    exact ⟨r, rest, h, hm, hmax, hperm⟩
  · intro E T seed cs terr q pctr x y c q' p' hgen r hpol
    rcases generateChunk_cases E T seed cs terr q pctr x y with hnone | ⟨c₀, q₀, p₀, hsome, hcases⟩
    · rw [hgen] at hnone; exact absurd hnone (by simp)
    · rw [hgen] at hsome
      obtain ⟨hc, hq, _⟩ : c = c₀ ∧ q' = q₀ ∧ p' = p₀ := by
        have := Option.some.inj hsome
        exact ⟨congrArg (fun t => t.1) this, congrArg (fun t => t.2.1) this,
          congrArg (fun t => t.2.2) this⟩
      subst hc; subst hq
      rcases hcases with ⟨hnone', _, _⟩ | ⟨r₀, rest₀, hpop, hpol₀, hrest, _⟩
      · rw [hpol] at hnone'; exact absurd hnone' (by simp)
      · rw [hpol] at hpol₀
        have hrr : r = r₀ := Option.some.inj hpol₀
        subst hrr; subst hrest
        exact hpop

/-- **C3 witness.** The spec's example: queue `[sig 1, sig 5]` pops the
significance-5 rumor first and removes it. -/
theorem rumor_priority_pop_witness :
    ∃ r rest, getNextRumor [rumorLow, rumorHigh] = some (r, rest) ∧
      r ∈ [rumorLow, rumorHigh] ∧
      (∀ s ∈ [rumorLow, rumorHigh], s.significance ≤ r.significance) ∧
      List.Perm [rumorLow, rumorHigh] (r :: rest) :=
  rumor_priority_pop.2.1 [rumorLow, rumorHigh] (by decide)

/-! ## Capture persistence (territory overrides) -/

/-- Well-formedness of the override table: every override key is the
generated anchor of its own macro-region.  This is the invariant of all
states reachable through `capture_node` from the initial empty table. -/
def anchorsWF (E : Ext) (seed : Int) (ov : Overrides) : Prop :=
  ∀ k n, dictGet ov k = some n →
    (generateNodeForRegion E seed (k.1 / 8) (k.2 / 8)).chunk_x = k.1 ∧
    (generateNodeForRegion E seed (k.1 / 8) (k.2 / 8)).chunk_y = k.2

/-- Any coordinate holding a node is the generated anchor of its region. -/
theorem node_holder_is_anchor (E : Ext) (seed : Int) (ov : Overrides) (x y : Int)
    (n₀ : TerritoryNode) (hwf : anchorsWF E seed ov)
    (hnode : getNodeAt E seed ov x y = some n₀) :
    (generateNodeForRegion E seed (x / 8) (y / 8)).chunk_x = x ∧
    (generateNodeForRegion E seed (x / 8) (y / 8)).chunk_y = y := by
  unfold getNodeAt at hnode
  cases hov : dictGet ov (x, y) with
  | some n => exact hwf (x, y) n hov
  | none =>
    rw [hov] at hnode
    simp only [MACRO_REGION_SIZE] at hnode
    split_ifs at hnode with hcond
    exact hcond

/-- **C5.** After a successful capture of the node at `(x, y)` by faction
`F` (from a reachable override state), the controlling faction at `(x, y)`
is `F` and `get_node_at (x, y)` is the old node with only its faction
replaced; all `get_node_at` / `get_controlling_faction` answers in every
other macro-region are unchanged. -/
theorem capture_persistence (E : Ext) (seed : Int) (ov ov' : Overrides)
    (x y : Int) (F : String) (n₀ : TerritoryNode)
    (hwf : anchorsWF E seed ov)
    (hnode : getNodeAt E seed ov x y = some n₀)
    (hcap : captureNode E seed ov x y F = (true, ov')) :
    getControllingFaction E seed ov' x y = F ∧
    getNodeAt E seed ov' x y =
      some { id := n₀.id, chunk_x := n₀.chunk_x, chunk_y := n₀.chunk_y,
             poi_type := n₀.poi_type, faction_id := F } ∧
    ∀ cx cy, ¬(cx / 8 = x / 8 ∧ cy / 8 = y / 8) →
      getNodeAt E seed ov' cx cy = getNodeAt E seed ov cx cy ∧
      getControllingFaction E seed ov' cx cy = getControllingFaction E seed ov cx cy := by
  have hov' : ov' = ((x, y),
      ({ id := n₀.id, chunk_x := n₀.chunk_x, chunk_y := n₀.chunk_y,
         poi_type := n₀.poi_type, faction_id := F } : TerritoryNode)) :: ov := by
    unfold captureNode at hcap
    rw [hnode] at hcap
    exact (congrArg Prod.snd hcap).symm
  obtain ⟨hax, hay⟩ := node_holder_is_anchor E seed ov x y n₀ hwf hnode
  refine ⟨?_, ?_, ?_⟩
  · unfold getControllingFaction
    simp only [MACRO_REGION_SIZE]
    rw [hax, hay, hov']
    simp [dictGet]
  · unfold getNodeAt
    rw [hov']
    simp [dictGet]
  · intro cx cy hreg
    have hne : ¬((cx, cy) = ((x, y) : Int × Int)) := by
      intro hxy
      obtain ⟨h1, h2⟩ := Prod.mk.injEq cx cy x y ▸ hxy
      exact hreg ⟨by rw [h1], by rw [h2]⟩
    constructor
    · unfold getNodeAt
      rw [hov']
      simp only [dictGet, if_neg hne]
    · unfold getControllingFaction
      simp only [MACRO_REGION_SIZE]
      obtain ⟨hrx, hry⟩ := anchor_region E seed (cx / 8) (cy / 8)
      have hne' : ¬(((generateNodeForRegion E seed (cx / 8) (cy / 8)).chunk_x,
          (generateNodeForRegion E seed (cx / 8) (cy / 8)).chunk_y) = ((x, y) : Int × Int)) := by
        intro hxy
        obtain ⟨h1, h2⟩ := Prod.mk.injEq _ _ x y ▸ hxy
        apply hreg
        constructor
        · rw [← h1, hrx]
        · rw [← h2, hry]
      rw [hov']
      simp only [dictGet, if_neg hne']

/-- The override record produced by capturing environment B's `(2,2)` node
for `"faction_9"`. -/
def capNodeB : TerritoryNode :=
  { id := "node_0_0", chunk_x := 2, chunk_y := 2, poi_type := "encampment",
    faction_id := "faction_9" }

/-- **C5 witness.** Capturing the `(2,2)` node of environment B for
`"faction_9"`: the captured coordinate now reports that faction and the
faction-swapped node, while `(10,2)` (a different macro-region) is
untouched. -/
theorem capture_persistence_witness :
    getControllingFaction envB 0 [((2, 2), capNodeB)] 2 2 = "faction_9" ∧
    getNodeAt envB 0 [((2, 2), capNodeB)] 2 2 = some capNodeB ∧
    getNodeAt envB 0 [((2, 2), capNodeB)] 10 2 = getNodeAt envB 0 [] 10 2 := by
  have h := capture_persistence envB 0 [] [((2, 2), capNodeB)] 2 2 "faction_9"
    (generateNodeForRegion envB 0 0 0)
    (fun k n hk => Option.noConfusion hk)
    (by with_unfolding_all decide) (by with_unfolding_all decide)
  have e : ({ id := (generateNodeForRegion envB 0 0 0).id,
              chunk_x := (generateNodeForRegion envB 0 0 0).chunk_x,
              chunk_y := (generateNodeForRegion envB 0 0 0).chunk_y,
              poi_type := (generateNodeForRegion envB 0 0 0).poi_type,
              faction_id := "faction_9" } : TerritoryNode) = capNodeB := by
    with_unfolding_all decide
  exact ⟨h.1, e ▸ h.2.1, (h.2.2 10 2 (by decide)).1⟩

/-! ## Terrain classification vocabulary (C10) and regeneration
determinism (C1) -/

/-- The wilderness chunk generated at `(5,5)` in environment A. -/
def wildChunk : Chunk :=
  { coords := (5, 5), biome := plainsDef, population := [], pol := none,
    terrain := "wilderness", faction_id := "warband_5_5", is_spawned := false,
    roads := some [] }

/-- **C10 (amended).** Every chunk record produced by generation carries a
terrain classification among wilderness, bespoke, structured-dungeon, or —
when a rumor is resolved into the chunk — `"structured_"` followed by the
resolved rumor's type (`dungeon`, `prefab` or `encampment`). -/
theorem terrain_vocabulary (E : Ext) (T : Tables) (seed cs : Int)
    (terr : Option (Int × Overrides)) (q : List Rumor) (pctr : Nat) (x y : Int)
    (c : Chunk) (q' : List Rumor) (p' : Nat)
    (h : generateChunk E T seed cs terr q pctr x y = some (c, q', p')) :
    c.terrain = "wilderness" ∨ c.terrain = "bespoke" ∨
    c.terrain = "structured_dungeon" ∨
    ∃ r ∈ q, c.terrain = "structured_" ++ r.pol_type := by
  rcases generateChunk_cases E T seed cs terr q pctr x y with
    hnone | ⟨c₀, q₀, p₀, hsome, hcases⟩
  · rw [h] at hnone; exact absurd hnone (by simp)
  · rw [h] at hsome
    have hc : c = c₀ := congrArg (fun t => t.1) (Option.some.inj hsome)
    subst hc
    rcases hcases with ⟨_, _, hterr⟩ | ⟨r, rest, hpop, _, _, hterr⟩
    · rcases hterr with h1 | h1 | h1
      · exact Or.inl h1
      · exact Or.inr (Or.inl h1)
      · exact Or.inr (Or.inr (Or.inl h1))
    · exact Or.inr (Or.inr (Or.inr ⟨r, (getNextRumor_spec q r rest hpop).1, hterr⟩))

/-- **C10 witness.** The empty-queue wilderness chunk at `(5,5)` of
environment A is classified among the allowed vocabulary. -/
theorem terrain_vocabulary_witness :
    wildChunk.terrain = "wilderness" ∨ wildChunk.terrain = "bespoke" ∨
    wildChunk.terrain = "structured_dungeon" ∨
    ∃ r ∈ ([] : List Rumor), wildChunk.terrain = "structured_" ++ r.pol_type :=
  terrain_vocabulary envA tblA 0 20 none [] 0 5 5 wildChunk [] 0
    (by with_unfolding_all decide)

/-- **C10 counterexample.** Resolving a queued prefab-typed rumor yields a
chunk whose terrain classification is `"structured_prefab"`, which is none
of the three values the claim allows. -/
theorem terrain_vocabulary_counterexample :
    ((generateChunk envA tblA 0 20 none [rumorPrefab] 0 1 1).map
      (fun p => p.1.terrain)) = some "structured_prefab" ∧
    "structured_prefab" ≠ "wilderness" ∧ "structured_prefab" ≠ "bespoke" ∧
    "structured_prefab" ≠ "structured_dungeon" := by
  with_unfolding_all decide

/-- First generation of chunk `(0,0)` in environment A (a settlement
chunk), from a fresh manager. -/
def chunkA1 : Option (Chunk × CMState) := getChunk envA tblA 0 20 none ⟨[], [], 0⟩ 0 0

/-- Regeneration of the same chunk after discarding the cache but keeping
the manager (and hence the already-advanced planner RNG). -/
def chunkA2 : Option (Chunk × CMState) :=
  chunkA1.bind (fun p => getChunk envA tblA 0 20 none ⟨[], p.2.rumor_queue, p.2.planner_ctr⟩ 0 0)

/-- **C1 (code bug).** With an empty rumor queue, generating the same
settlement chunk twice in the same manager — discarding the cache in
between — keeps the terrain classification but changes the bespoke tile
content: the settlement planner draws from a single RNG seeded once at
manager construction, so the second generation consumes later draws and
places its limb module elsewhere (here the tile at local `(4,4)`
disappears). -/
theorem settlement_regen_divergence :
    (chunkA1.map fun p => p.1.terrain) = some "bespoke" ∧
    (chunkA2.map fun p => p.1.terrain) = some "bespoke" ∧
    (chunkA1.map fun p => dictGet (p.1.bespoke_tiles.getD []) (4, 4)) = some (some "wall") ∧
    (chunkA2.map fun p => dictGet (p.1.bespoke_tiles.getD []) (4, 4)) = some none := by
  with_unfolding_all decide

/-! ## Tile precedence (C2) -/

/-- **C2 counterexample.** The encampment chunk at `(2,2)` of environment B
stamps the bespoke override `"floor"` at local `(10,10)`, yet `get_tile`
at the corresponding global coordinate `(50,50)` reports the biome roll
(`"water"`): the bespoke override map is only consulted when the chunk's
terrain classification is `"bespoke"`, which encampment chunks
(classified `"wilderness"`) never are. -/
theorem tile_precedence_counterexample :
    ((getChunk envB tblB 0 20 (some (0, [])) ⟨[], [], 0⟩ 2 2).map
      (fun p => (p.1.terrain, dictGet (p.1.bespoke_tiles.getD []) (10, 10)))) =
      some ("wilderness", some "floor") ∧
    ((getTile envB tblB 0 20 (some (0, [])) ⟨[], [], 0⟩ 50 50).map Prod.fst) =
      some "water" ∧
    "water" ≠ "floor" := by
  with_unfolding_all decide

/-- **C2 (amended).** The strict precedence of `get_tile` over a cached
chunk record: a bespoke override wins — but only in chunks classified
`"bespoke"`, i.e. settlement chunks, so the prop tile stamped for
encampment chunks is not reported — then an in-range dungeon grid cell,
then the road overlay, then the biome-driven roll against the four
cumulative density thresholds in the order water/tree/rubble/grass,
falling through to the floor category. -/
theorem tile_precedence_amended (E : Ext) (T : Tables) (seed cs : Int)
    (terr : Option (Int × Overrides)) (st : CMState) (gx gy : Int) (c : Chunk)
    (hc : dictGet st.cache (gx / cs, gy / cs) = some c) :
    (∀ t, c.terrain = "bespoke" →
      dictGet (c.bespoke_tiles.getD []) (gx % cs, gy % cs) = some t →
      getTile E T seed cs terr st gx gy = some (t, st)) ∧
    (∀ d, (c.terrain = "bespoke" →
        dictGet (c.bespoke_tiles.getD []) (gx % cs, gy % cs) = none) →
      c.dungeon_layout = some d →
      0 ≤ gy % cs → gy % cs < (d.tiles.length : Int) →
      0 ≤ gx % cs → gx % cs < ((d.tiles.headD []).length : Int) →
      getTile E T seed cs terr st gx gy = some (tileAt d.tiles (gx % cs) (gy % cs), st)) ∧
    ((c.terrain = "bespoke" →
        dictGet (c.bespoke_tiles.getD []) (gx % cs, gy % cs) = none) →
      c.dungeon_layout = none →
      (gx % cs, gy % cs) ∈ c.roads.getD [] →
      getTile E T seed cs terr st gx gy = some ("floor", st)) ∧
    ((c.terrain = "bespoke" →
        dictGet (c.bespoke_tiles.getD []) (gx % cs, gy % cs) = none) →
      c.dungeon_layout = none →
      (gx % cs, gy % cs) ∉ c.roads.getD [] →
      getTile E T seed cs terr st gx gy =
        some ((if pyRandom E (E.pyHash3 gx gy seed) 0 < c.biome.water_density then "water"
          else if pyRandom E (E.pyHash3 gx gy seed) 0 <
              c.biome.water_density + c.biome.tree_density then "tree"
          else if pyRandom E (E.pyHash3 gx gy seed) 0 <
              c.biome.water_density + c.biome.tree_density + c.biome.rubble_density then "wall"
          else if pyRandom E (E.pyHash3 gx gy seed) 0 <
              c.biome.water_density + c.biome.tree_density + c.biome.rubble_density +
                c.biome.grass_density then "grass"
          else "floor"), st)) := by
  have hchunk : getChunk E T seed cs terr st (gx / cs) (gy / cs) = some (c, st) := by
    unfold getChunk
    rw [hc]
  refine ⟨?_, ?_, ?_, ?_⟩
  · intro t ht hbt
    unfold getTile
    rw [hchunk]
    dsimp only
    have hbes : (if c.terrain = "bespoke" then
        dictGet (c.bespoke_tiles.getD []) (gx % cs, gy % cs) else none) = some t := by
      rw [if_pos ht, hbt]
    rw [hbes]
  · intro d hbmiss hd h1 h2 h3 h4
    unfold getTile
    rw [hchunk]
    dsimp only
    have hbes : (if c.terrain = "bespoke" then
        dictGet (c.bespoke_tiles.getD []) (gx % cs, gy % cs) else none) = none := by
      split_ifs with hterr
      · exact hbmiss hterr
      · rfl
    rw [hbes]
    dsimp only
    rw [hd]
    dsimp only
    rw [if_pos (show 0 ≤ gy % cs ∧ gy % cs < (d.tiles.length : Int) ∧ 0 ≤ gx % cs ∧
        gx % cs < ((d.tiles.headD []).length : Int) from ⟨h1, h2, h3, h4⟩)]
  · intro hbmiss hd hroad
    unfold getTile
    rw [hchunk]
    dsimp only
    have hbes : (if c.terrain = "bespoke" then
        dictGet (c.bespoke_tiles.getD []) (gx % cs, gy % cs) else none) = none := by
      split_ifs with hterr
      · exact hbmiss hterr
      · rfl
    rw [hbes]
    dsimp only
    rw [hd]
    dsimp only
    rw [if_pos hroad]
  · intro hbmiss hd hroad
    unfold getTile
    rw [hchunk]
    dsimp only
    have hbes : (if c.terrain = "bespoke" then
        dictGet (c.bespoke_tiles.getD []) (gx % cs, gy % cs) else none) = none := by
      split_ifs with hterr
      · exact hbmiss hterr
      · rfl
    rw [hbes]
    dsimp only
    rw [hd]
    dsimp only
    rw [if_neg hroad]
    split_ifs <;> rfl

/-- A cached settlement chunk with one bespoke water tile, for the C2
witness. -/
def bespokeChunkW : Chunk :=
  { coords := (0, 0), biome := plainsDef, population := [], pol := none,
    terrain := "bespoke", faction_id := "faction_1", is_spawned := false,
    bespoke_tiles := some [((3, 4), "water")], spawns := some [], roads := some [] }

/-- **C2 witness.** Over a cache holding a settlement chunk with override
`"water"` at local `(3,4)`, `get_tile` reports exactly that override. -/
theorem tile_precedence_amended_witness :
    getTile envA tblA 0 20 none ⟨[((0, 0), bespokeChunkW)], [], 0⟩ 3 4 =
      some ("water", ⟨[((0, 0), bespokeChunkW)], [], 0⟩) :=
  (tile_precedence_amended envA tblA 0 20 none ⟨[((0, 0), bespokeChunkW)], [], 0⟩
    3 4 bespokeChunkW (by decide)).1 "water" rfl (by decide)

/-! ## Biome fallback chain (C7) -/

theorem scanBiomes_none {t h : ℚ} {bs : List BiomeDef}
    (hs : scanBiomes t h bs = none) :
    ∀ b' ∈ bs, b'.id = "plains" ∨ ¬ biomeEligible t h b' := by
  induction bs with
  | nil => intro b' hb'; exact absurd hb' (by simp)
  | cons b rest ih =>
    intro b' hb'
    unfold scanBiomes at hs
    simp only [List.mem_cons] at hb'
    split_ifs at hs with hp he
    · rcases hb' with rfl | hb'
      · exact Or.inl hp
      · exact ih hs b' hb'
    · rcases hb' with rfl | hb'
      · exact Or.inr he
      · exact ih hs b' hb'

theorem scanBiomes_some {t h : ℚ} {bs : List BiomeDef} {b : BiomeDef}
    (hs : scanBiomes t h bs = some b) :
    ∃ pre post, bs = pre ++ b :: post ∧ b.id ≠ "plains" ∧ biomeEligible t h b ∧
      ∀ b' ∈ pre, b'.id = "plains" ∨ ¬ biomeEligible t h b' := by
  induction bs with
  | nil => exact absurd hs (by simp [scanBiomes])
  | cons x rest ih =>
    unfold scanBiomes at hs
    split_ifs at hs with hp he
    · obtain ⟨pre, post, hsplit, hnp, hel, hpre⟩ := ih hs
      refine ⟨x :: pre, post, by rw [hsplit]; rfl, hnp, hel, ?_⟩
      intro b' hb'
      simp only [List.mem_cons] at hb'
      rcases hb' with rfl | hb'
      · exact Or.inl hp
      · exact hpre b' hb'
    · have hb : x = b := Option.some.inj hs
      subst hb
      exact ⟨[], rest, rfl, hp, he, by simp⟩
    · obtain ⟨pre, post, hsplit, hnp, hel, hpre⟩ := ih hs
      refine ⟨x :: pre, post, by rw [hsplit]; rfl, hnp, hel, ?_⟩
      intro b' hb'
      simp only [List.mem_cons] at hb'
      rcases hb' with rfl | hb'
      · exact Or.inr he
      · exact hpre b' hb'

theorem findPlains_none {bs : List BiomeDef} (hf : findPlains bs = none) :
    ∀ b' ∈ bs, b'.id ≠ "plains" := by
  induction bs with
  | nil => intro b' hb'; exact absurd hb' (by simp)
  | cons b rest ih =>
    intro b' hb'
    unfold findPlains at hf
    split_ifs at hf with hp
    simp only [List.mem_cons] at hb'
    rcases hb' with rfl | hb'
    · exact hp
    · exact ih hf b' hb'

theorem findPlains_some {bs : List BiomeDef} {b : BiomeDef}
    (hf : findPlains bs = some b) :
    ∃ pre post, bs = pre ++ b :: post ∧ b.id = "plains" ∧
      ∀ b' ∈ pre, b'.id ≠ "plains" := by
  induction bs with
  | nil => exact absurd hf (by simp [findPlains])
  | cons x rest ih =>
    unfold findPlains at hf
    split_ifs at hf with hp
    · have hb : x = b := Option.some.inj hf
      subst hb
      exact ⟨[], rest, rfl, hp, by simp⟩
    · obtain ⟨pre, post, hsplit, hbp, hpre⟩ := ih hf
      refine ⟨x :: pre, post, by rw [hsplit]; rfl, hbp, ?_⟩
      intro b' hb'
      simp only [List.mem_cons] at hb'
      rcases hb' with rfl | hb'
      · exact hp
      · exact hpre b' hb'

/-- **C7 (amended).** On a non-empty biome table `get_biome` always yields
a biome, chosen by the documented chain: the first non-default entry whose
ranges contain both normalised samples; failing that the first default
(`"plains"`) entry; failing that the first biome of the table.  (On an
empty table the source raises — see the counterexample — so the non-empty
hypothesis is required.) -/
theorem biome_fallback_chain (E : Ext) (seed : Int) (bs : List BiomeDef)
    (x y : Int) (hne : bs ≠ []) :
    ∃ b pre post, getBiome E seed bs x y = some b ∧ bs = pre ++ b :: post ∧
      ((b.id ≠ "plains" ∧ biomeEligible ((E.noise seed x y + 1) / 2)
          ((E.noise (seed + 12345) x y + 1) / 2) b ∧
        ∀ b' ∈ pre, b'.id = "plains" ∨ ¬ biomeEligible ((E.noise seed x y + 1) / 2)
          ((E.noise (seed + 12345) x y + 1) / 2) b') ∨
       ((∀ b' ∈ bs, b'.id = "plains" ∨ ¬ biomeEligible ((E.noise seed x y + 1) / 2)
          ((E.noise (seed + 12345) x y + 1) / 2) b') ∧ b.id = "plains" ∧
        ∀ b' ∈ pre, b'.id ≠ "plains") ∨
       ((∀ b' ∈ bs, b'.id ≠ "plains" ∧ ¬ biomeEligible ((E.noise seed x y + 1) / 2)
          ((E.noise (seed + 12345) x y + 1) / 2) b') ∧ pre = [])) := by
  unfold getBiome
  dsimp only
  cases hs : scanBiomes ((E.noise seed x y + 1) / 2)
      ((E.noise (seed + 12345) x y + 1) / 2) bs with
  | some b =>
    obtain ⟨pre, post, hsplit, hnp, hel, hpre⟩ := scanBiomes_some hs
    exact ⟨b, pre, post, rfl, hsplit, Or.inl ⟨hnp, hel, hpre⟩⟩
  | none =>
    have hall := scanBiomes_none hs
    cases hf : findPlains bs with
    | some b =>
      obtain ⟨pre, post, hsplit, hbp, hpre⟩ := findPlains_some hf
      exact ⟨b, pre, post, rfl, hsplit, Or.inr (Or.inl ⟨hall, hbp, hpre⟩)⟩
    | none =>
      have hnp := findPlains_none hf
      cases bs with
      | nil => exact absurd rfl hne
      | cons b rest =>
        refine ⟨b, [], rest, rfl, rfl, Or.inr (Or.inr ⟨?_, rfl⟩)⟩
        intro b' hb'
        refine ⟨hnp b' hb', ?_⟩
        rcases hall b' hb' with hpl | hinel
        · exact absurd hpl (hnp b' hb')
        · exact hinel

/-- **C7 witness.** On the two-biome table of environment B at chunk
`(2,2)`, the chain yields a biome (the eligible non-default `aquaDef`). -/
theorem biome_fallback_chain_witness :
    ∃ b pre post, getBiome envB 0 [aquaDef, plainsDef] 2 2 = some b ∧
      [aquaDef, plainsDef] = pre ++ b :: post ∧
      ((b.id ≠ "plains" ∧ biomeEligible ((envB.noise 0 2 2 + 1) / 2)
          ((envB.noise (0 + 12345) 2 2 + 1) / 2) b ∧
        ∀ b' ∈ pre, b'.id = "plains" ∨ ¬ biomeEligible ((envB.noise 0 2 2 + 1) / 2)
          ((envB.noise (0 + 12345) 2 2 + 1) / 2) b') ∨
       ((∀ b' ∈ [aquaDef, plainsDef], b'.id = "plains" ∨
          ¬ biomeEligible ((envB.noise 0 2 2 + 1) / 2)
            ((envB.noise (0 + 12345) 2 2 + 1) / 2) b') ∧ b.id = "plains" ∧
        ∀ b' ∈ pre, b'.id ≠ "plains") ∨
       ((∀ b' ∈ [aquaDef, plainsDef], b'.id ≠ "plains" ∧
          ¬ biomeEligible ((envB.noise 0 2 2 + 1) / 2)
            ((envB.noise (0 + 12345) 2 2 + 1) / 2) b') ∧ pre = [])) :=
  biome_fallback_chain envB 0 [aquaDef, plainsDef] 2 2 (by decide)

/-- **C7 counterexample.** On an empty biome table `get_biome` yields no
biome at all (the embedded image of the source's `self.biomes[0]`
`IndexError`), refuting the claim that the lookup never fails even for an
empty table. -/
theorem biome_fallback_counterexample :
    getBiome envA 0 [] 0 0 = none := rfl

/-! ## Settlement planner layout (C9) -/

theorem rectsOverlap_comm (x1 y1 w1 h1 x2 y2 w2 h2 : Int) :
    rectsOverlap x1 y1 w1 h1 x2 y2 w2 h2 = rectsOverlap x2 y2 w2 h2 x1 y1 w1 h1 := by
  unfold rectsOverlap
  split_ifs with h h'
  · rfl
  · exact absurd (by tauto) h'
  · exact absurd (by tauto) h
  · rfl

/-- The non-overlap relation between two module placements, as checked by
the planner. -/
def placementsDisjoint (a b : ModuleDef × Int × Int) : Prop :=
  rectsOverlap a.2.1 a.2.2 (moduleW a.1) (moduleH a.1)
    b.2.1 b.2.2 (moduleW b.1) (moduleH b.1) = false

/-- Any spot accepted by the retry loop passed both the bounds check and
the overlap scan. -/
theorem tryPlaceLimb_some_spec (E : Ext) (s : Int)
    (placements : List (ModuleDef × Int × Int)) (hx hy lw lh cs : Int) :
    ∀ (att ctr : Nat) (nx ny : Int) (ctr' : Nat),
      tryPlaceLimb E s placements hx hy lw lh cs att ctr = (some (nx, ny), ctr') →
      (0 ≤ nx ∧ nx < cs - lw ∧ 0 ≤ ny ∧ ny < cs - lh) ∧
      overlapAny placements nx ny lw lh = false := by
  intro att
  induction att with
  | zero =>
    intro ctr nx ny ctr' hres
    exact absurd (congrArg Prod.fst hres) (by simp [tryPlaceLimb])
  | succ att ih =>
    intro ctr nx ny ctr' hres
    unfold tryPlaceLimb at hres
    dsimp only at hres
    split_ifs at hres with hbounds hov
    · exact ih _ _ _ _ hres
    · have h1 : hx + pyRandint E s ctr (-5) 5 = nx :=
        congrArg (fun p => p.1.getD (0, 0) |>.1) hres
      have h2 : hy + pyRandint E s (ctr + 1) (-5) 5 = ny :=
        congrArg (fun p => p.1.getD (0, 0) |>.2) hres
      rw [h1, h2] at hbounds
      refine ⟨hbounds, ?_⟩
      rw [← h1, ← h2]
      exact Bool.not_eq_true _ ▸ hov
    · exact ih _ _ _ _ hres

/-- The limb loop only appends: every added placement is in bounds and
disjoint from everything placed before it. -/
theorem placeLimbs_spec (E : Ext) (mods : List (String × ModuleDef)) (s : Int)
    (hx hy cs : Int) :
    ∀ (k ctr : Nat) (ps : List (ModuleDef × Int × Int)),
      List.Pairwise placementsDisjoint ps →
      ∃ added, (placeLimbs E mods s hx hy cs k ctr ps).1 = ps ++ added ∧
        added.length ≤ k ∧
        (∀ p ∈ added, 0 ≤ p.2.1 ∧ p.2.1 + moduleW p.1 < cs ∧
          0 ≤ p.2.2 ∧ p.2.2 + moduleH p.1 < cs) ∧
        List.Pairwise placementsDisjoint (ps ++ added) := by
  intro k
  induction k with
  | zero =>
    intro ctr ps hps
    exact ⟨[], by simp [placeLimbs], by simp, by simp, by simpa using hps⟩
  | succ k ih =>
    intro ctr ps hps
    unfold placeLimbs
    dsimp only
    cases hm : dictGet mods (pyChoice E s ctr ["small_room", "garden_unit"] "") with
    | none =>
      obtain ⟨added, h1, h2, h3, h4⟩ := ih (ctr + 1) ps hps
      exact ⟨added, h1, by omega, h3, h4⟩
    | some limb =>
      dsimp only
      cases hsp : tryPlaceLimb E s ps hx hy (moduleW limb) (moduleH limb) cs 10 (ctr + 1) with
      | mk spot ctr' =>
        cases spot with
        | none =>
          obtain ⟨added, h1, h2, h3, h4⟩ := ih ctr' ps hps
          exact ⟨added, h1, by omega, h3, h4⟩
        | some xy =>
          obtain ⟨nx, ny⟩ := xy
          obtain ⟨hb, hov⟩ := tryPlaceLimb_some_spec E s ps hx hy (moduleW limb)
            (moduleH limb) cs 10 (ctr + 1) nx ny ctr' hsp
          have hdisj : ∀ p ∈ ps, placementsDisjoint p (limb, nx, ny) := by
            intro p hp
            have hfalse : rectsOverlap nx ny (moduleW limb) (moduleH limb)
                p.2.1 p.2.2 (moduleW p.1) (moduleH p.1) = false := by
              unfold overlapAny at hov
              rw [List.any_eq_false] at hov
              simpa using hov p hp
            unfold placementsDisjoint
            rw [rectsOverlap_comm]
            exact hfalse
          have hps' : List.Pairwise placementsDisjoint (ps ++ [(limb, nx, ny)]) := by
            rw [List.pairwise_append]
            refine ⟨hps, List.pairwise_singleton _ _, ?_⟩
            intro a ha b hb'
            simp only [List.mem_singleton] at hb'
            subst hb'
            exact hdisj a ha
          obtain ⟨added, hres2, hlen, hbounds, hpair⟩ := ih ctr' (ps ++ [(limb, nx, ny)]) hps'
          refine ⟨(limb, nx, ny) :: added, ?_, ?_, ?_, ?_⟩
          · rw [hres2]
            simp
          · simp only [List.length_cons]
            omega
          · intro p hp
            simp only [List.mem_cons] at hp
            rcases hp with rfl | hp
            · dsimp only
              obtain ⟨b1, b2, b3, b4⟩ := hb
              exact ⟨b1, by omega, b3, by omega⟩
            · exact hbounds p hp
          · simpa [List.append_assoc] using hpair

/-- **C9.** The settlement plan: the first placement is the heart module
centered in the chunk; it is followed by at most 2 limb placements, each
lying fully inside the chunk; and all placed bounding rectangles are
pairwise non-overlapping.  (A limb that finds no spot is simply absent,
which the length bound reflects; the embedded planner is total, so no
error path exists.) -/
theorem settlement_plan_layout (E : Ext) (mods : List (String × ModuleDef))
    (seed : Int) (ctr : Nat) (cs : Int) (heart : ModuleDef)
    (hheart : dictGet mods "tavern_heart" = some heart) :
    ∃ limbs, (planSettlement E mods seed ctr cs).1 =
        (heart, (cs - moduleW heart) / 2, (cs - moduleH heart) / 2) :: limbs ∧
      limbs.length ≤ 2 ∧
      (∀ p ∈ limbs, 0 ≤ p.2.1 ∧ p.2.1 + moduleW p.1 ≤ cs ∧
        0 ≤ p.2.2 ∧ p.2.2 + moduleH p.1 ≤ cs) ∧
      List.Pairwise placementsDisjoint
        ((heart, (cs - moduleW heart) / 2, (cs - moduleH heart) / 2) :: limbs) := by
  unfold planSettlement
  rw [hheart]
  dsimp only
  have hcount : (pyRandint E seed ctr 1 2).toNat ≤ 2 := by
    obtain ⟨hlo, hhi⟩ := pyRandint_bounds E seed ctr 1 2 (by omega)
    omega
  obtain ⟨added, hres, hlen, hbounds, hpair⟩ :=
    placeLimbs_spec E mods seed ((cs - moduleW heart) / 2) ((cs - moduleH heart) / 2) cs
      (pyRandint E seed ctr 1 2).toNat (ctr + 1)
      [(heart, (cs - moduleW heart) / 2, (cs - moduleH heart) / 2)]
      (List.pairwise_singleton _ _)
  refine ⟨added, by simpa using hres, by omega, ?_, by simpa using hpair⟩
  intro p hp
  obtain ⟨h1, h2, h3, h4⟩ := hbounds p hp
  exact ⟨h1, by omega, h3, by omega⟩

/-- **C9 witness.** In environment A the plan for a 20-tile chunk is the
heart centered at `(9,9)` plus one limb, in bounds and non-overlapping. -/
theorem settlement_plan_layout_witness :
    ∃ limbs, (planSettlement envA tblA.modules 0 0 20).1 =
        (tavernHeart, (20 - moduleW tavernHeart) / 2, (20 - moduleH tavernHeart) / 2) :: limbs ∧
      limbs.length ≤ 2 ∧
      (∀ p ∈ limbs, 0 ≤ p.2.1 ∧ p.2.1 + moduleW p.1 ≤ 20 ∧
        0 ≤ p.2.2 ∧ p.2.2 + moduleH p.1 ≤ 20) ∧
      List.Pairwise placementsDisjoint
        ((tavernHeart, (20 - moduleW tavernHeart) / 2,
          (20 - moduleH tavernHeart) / 2) :: limbs) :=
  settlement_plan_layout envA tblA.modules 0 0 20 tavernHeart (by decide)

/-! ## BSP dungeon room bounds (C8) -/

/-- A partition rectangle fully inside the `W × H` grid with both
dimensions at least 4 (the smallest leaf size from which the source's room
carving stays in bounds; splitting only produces pieces of size at least
the minimum room size 6). -/
def RectOK (W H : Int) (r : Rect) : Prop :=
  0 ≤ r.x ∧ 0 ≤ r.y ∧ r.x + r.w ≤ W ∧ r.y + r.h ≤ H ∧ 4 ≤ r.w ∧ 4 ≤ r.h

/-- The claim's per-room property, minus the floor-tile part. -/
def RoomOK (W H : Int) (r : Rect) : Prop :=
  0 ≤ r.x ∧ 0 ≤ r.y ∧ r.x + r.w ≤ W ∧ r.y + r.h ≤ H ∧ 3 ≤ r.w ∧ 3 ≤ r.h

/-- The rectangles at the leaves of a split tree. -/
def treeLeaves : BSPTree → List Rect
  | .leaf r => [r]
  | .node _ l r => treeLeaves l ++ treeLeaves r

/-- The tile grid has exactly `H` rows of exactly `W` cells. -/
def TilesDim (W H : Int) (t : Tiles) : Prop :=
  t.length = H.toNat ∧ ∀ row ∈ t, row.length = W.toNat

theorem foldl_preserve {α β : Type} (f : β → α → β) (Q : β → Prop)
    (hpres : ∀ b a, Q b → Q (f b a)) :
    ∀ (l : List α) (b : β), Q b → Q (l.foldl f b) := by
  intro l
  induction l with
  | nil => intro b hb; exact hb
  | cons x xs ih => intro b hb; exact ih (f b x) (hpres b x hb)

theorem foldl_establish_inv {α β : Type} (f : β → α → β) (P Q : β → Prop)
    (l : List α) (a : α) (ha : a ∈ l)
    (hP : ∀ b x, P b → P (f b x))
    (hest : ∀ b, P b → Q (f b a))
    (hQ : ∀ b x, Q b → Q (f b x)) :
    ∀ b, P b → Q (l.foldl f b) := by
  induction l with
  | nil => exact absurd ha (by simp)
  | cons x xs ih =>
    intro b hb
    simp only [List.mem_cons] at ha
    by_cases hax : a = x
    · subst hax
      exact foldl_preserve f Q hQ xs (f b a) (hest b hb)
    · have ha' : a ∈ xs := by tauto
      exact ih ha' (f b x) (hP b x hb)

theorem getD_set_self {α : Type} (l : List α) (i : Nat) (a d : α) (h : i < l.length) :
    (l.set i a).getD i d = a := by
  rw [List.getD_eq_getElem?_getD, List.getElem?_set_self h, Option.getD_some]

theorem getD_set_ne {α : Type} (l : List α) (i j : Nat) (a d : α) (h : i ≠ j) :
    (l.set i a).getD j d = l.getD j d := by
  rw [List.getD_eq_getElem?_getD, List.getElem?_set_ne h, ← List.getD_eq_getElem?_getD]

theorem setFloor_dim (W H : Int) (t : Tiles) (cx cy : Int) (h : TilesDim W H t) :
    TilesDim W H (setFloor W H t cx cy) := by
  obtain ⟨hlen, hrow⟩ := h
  unfold setFloor
  split_ifs with hg
  · refine ⟨by rw [List.length_set]; exact hlen, ?_⟩
    intro row hmem
    rcases List.mem_or_eq_of_mem_set hmem with hmem' | rfl
    · exact hrow row hmem'
    · rw [List.length_set]
      obtain ⟨hg1, hg2, hg3, hg4⟩ := hg
      have hin : cy.toNat < t.length := by omega
      rw [List.getD_eq_getElem?_getD, List.getElem?_eq_getElem hin, Option.getD_some]
      exact hrow t[cy.toNat] (List.getElem_mem hin)
  · exact ⟨hlen, hrow⟩

theorem tileAt_setFloor (W H : Int) (t : Tiles) (cx cy px py : Int) :
    tileAt (setFloor W H t cx cy) px py = tileAt t px py ∨
    tileAt (setFloor W H t cx cy) px py = "floor" := by
  unfold setFloor tileAt
  split_ifs with hg
  · by_cases hrow : cy.toNat < t.length
    · by_cases hy : cy.toNat = py.toNat
      · rw [← hy, getD_set_self _ _ _ _ hrow]
        by_cases hcol : cx.toNat < (t.getD cy.toNat []).length
        · by_cases hx : cx.toNat = px.toNat
          · right
            rw [← hx, getD_set_self _ _ _ _ hcol]
          · left
            rw [getD_set_ne _ _ _ _ _ hx]
        · left
          rw [List.set_eq_of_length_le (by omega)]
      · left
        rw [getD_set_ne _ _ _ _ _ hy]
    · left
      rw [List.set_eq_of_length_le (by omega)]
  · left; rfl

theorem tileAt_floor_mono (W H : Int) (t : Tiles) (cx cy px py : Int)
    (h : tileAt t px py = "floor") :
    tileAt (setFloor W H t cx cy) px py = "floor" := by
  rcases tileAt_setFloor W H t cx cy px py with he | he
  · rw [he, h]
  · exact he

theorem setFloor_writes (W H : Int) (t : Tiles) (cx cy : Int)
    (hdim : TilesDim W H t) (hx0 : 0 ≤ cx) (hxW : cx < W) (hy0 : 0 ≤ cy) (hyH : cy < H) :
    tileAt (setFloor W H t cx cy) cx cy = "floor" := by
  obtain ⟨hlen, hrow⟩ := hdim
  have hyl : cy.toNat < t.length := by omega
  have hxl : cx.toNat < (t.getD cy.toNat []).length := by
    rw [List.getD_eq_getElem?_getD, List.getElem?_eq_getElem hyl, Option.getD_some,
      hrow t[cy.toNat] (List.getElem_mem hyl)]
    omega
  unfold setFloor tileAt
  rw [if_pos ⟨hx0, hxW, hy0, hyH⟩, getD_set_self _ _ _ _ hyl, getD_set_self _ _ _ _ hxl]

theorem carveRoom_dim (W H : Int) (room : Rect) (t : Tiles) (h : TilesDim W H t) :
    TilesDim W H (carveRoom W H room t) := by
  unfold carveRoom
  refine foldl_preserve _ (TilesDim W H) ?_ _ t h
  intro b _i hb
  exact foldl_preserve _ (TilesDim W H) (fun b' _j hb' => setFloor_dim W H b' _ _ hb') _ b hb

theorem carveRoom_mono (W H : Int) (room : Rect) (t : Tiles) (px py : Int)
    (h : tileAt t px py = "floor") :
    tileAt (carveRoom W H room t) px py = "floor" := by
  unfold carveRoom
  refine foldl_preserve _ (fun b => tileAt b px py = "floor") ?_ _ t h
  intro b _i hb
  exact foldl_preserve _ (fun b' => tileAt b' px py = "floor")
    (fun b' _j hb' => tileAt_floor_mono W H b' _ _ px py hb') _ b hb

theorem carveHCorridor_dim (W H : Int) (x1 x2 y : Int) (t : Tiles) (h : TilesDim W H t) :
    TilesDim W H (carveHCorridor W H x1 x2 y t) :=
  foldl_preserve _ (TilesDim W H) (fun b _i hb => setFloor_dim W H b _ _ hb) _ t h

theorem carveHCorridor_mono (W H : Int) (x1 x2 y px py : Int) (t : Tiles)
    (h : tileAt t px py = "floor") :
    tileAt (carveHCorridor W H x1 x2 y t) px py = "floor" :=
  foldl_preserve _ (fun b => tileAt b px py = "floor")
    (fun b _i hb => tileAt_floor_mono W H b _ _ px py hb) _ t h

theorem carveVCorridor_mono (W H : Int) (y1 y2 x px py : Int) (t : Tiles)
    (h : tileAt t px py = "floor") :
    tileAt (carveVCorridor W H y1 y2 x t) px py = "floor" :=
  foldl_preserve _ (fun b => tileAt b px py = "floor")
    (fun b _i hb => tileAt_floor_mono W H b _ _ px py hb) _ t h

/-- The carving of an in-grid room makes its center tile (integer-division
midpoint) a floor tile. -/
theorem carveRoom_center (W H : Int) (room : Rect) (t : Tiles)
    (hdim : TilesDim W H t) (hroom : RoomOK W H room) :
    tileAt (carveRoom W H room t) (room.x + room.w / 2) (room.y + room.h / 2) =
      "floor" := by
  obtain ⟨h1, h2, h3, h4, h5, h6⟩ := hroom
  unfold carveRoom
  refine foldl_establish_inv _ (TilesDim W H)
    (fun b => tileAt b (room.x + room.w / 2) (room.y + room.h / 2) = "floor")
    _ (room.h / 2).toNat ?_
    (fun b i hb => foldl_preserve _ (TilesDim W H)
      (fun b' j hb' => setFloor_dim W H b' _ _ hb') _ b hb)
    ?_
    (fun b i hb => foldl_preserve _ (fun b' => tileAt b' _ _ = "floor")
      (fun b' j hb' => tileAt_floor_mono W H b' _ _ _ _ hb') _ b hb)
    t hdim
  · rw [List.mem_range]
    omega
  · intro b hb
    refine foldl_establish_inv _ (TilesDim W H)
      (fun b' => tileAt b' (room.x + room.w / 2) (room.y + room.h / 2) = "floor")
      _ (room.w / 2).toNat ?_
      (fun b' j hb' => setFloor_dim W H b' _ _ hb')
      ?_
      (fun b' j hb' => tileAt_floor_mono W H b' _ _ _ _ hb')
      b hb
    · rw [List.mem_range]
      omega
    · intro b' hb'
      have hx : room.x + ((room.w / 2).toNat : Int) = room.x + room.w / 2 := by omega
      have hy : room.y + ((room.h / 2).toNat : Int) = room.y + room.h / 2 := by omega
      rw [hx, hy]
      exact setFloor_writes W H b' _ _ hb' (by omega) (by omega) (by omega) (by omega)

/-- The room carved in a leaf with both dimensions at least 4 lies fully
inside the leaf (hence the grid) and has both dimensions at least 3. -/
theorem leafRoom_ok (E : Ext) (s : Int) (rect : Rect) (ctr : Nat) (W H : Int)
    (h : RectOK W H rect) :
    RoomOK W H (leafRoom E s rect ctr).1 := by
  obtain ⟨h1, h2, h3, h4, h5, h6⟩ := h
  obtain ⟨hpx1, hpx2⟩ := pyRandint_bounds E s ctr 1 2 (by omega)
  obtain ⟨hpy1, hpy2⟩ := pyRandint_bounds E s (ctr + 1) 1 2 (by omega)
  unfold RoomOK leafRoom
  dsimp only
  set px := pyRandint E s ctr 1 2 with hpxe
  set py := pyRandint E s (ctr + 1) 1 2 with hpye
  set w := max 3 (rect.w - 2 * px) with hwe
  set hh := max 3 (rect.h - 2 * py) with hhe
  set xr := rect.w - w - 1 with hxre
  set yr := rect.h - hh - 1 with hyre
  split_ifs with hx hy hy <;> dsimp only
  · obtain ⟨ho1, ho2⟩ := pyRandint_bounds E s (ctr + 2) 1 xr (by omega)
    obtain ⟨hv1, hv2⟩ := pyRandint_bounds E s (ctr + 3) 1 yr (by omega)
    refine ⟨by omega, by omega, by omega, by omega, by omega, by omega⟩
  · obtain ⟨ho1, ho2⟩ := pyRandint_bounds E s (ctr + 2) 1 xr (by omega)
    refine ⟨by omega, by omega, by omega, by omega, by omega, by omega⟩
  · obtain ⟨hv1, hv2⟩ := pyRandint_bounds E s (ctr + 2) 1 yr (by omega)
    refine ⟨by omega, by omega, by omega, by omega, by omega, by omega⟩
  · refine ⟨by omega, by omega, by omega, by omega, by omega, by omega⟩

/-- Every leaf of the split tree of an in-grid rectangle with dimensions
at least 4 is itself in-grid with dimensions at least 4: a split at
`split ∈ [min_room_size, dim - min_room_size]` leaves both pieces at least
`min_room_size ≥ 4` wide. -/
theorem bspSplit_leaves_ok (E : Ext) (s msz : Int) (hm : 4 ≤ msz) (W H : Int) :
    ∀ (iter : Nat) (rect : Rect) (ctr : Nat), RectOK W H rect →
      ∀ r ∈ treeLeaves (bspSplit E s msz iter rect ctr).1, RectOK W H r := by
  intro iter
  induction iter with
  | zero =>
    intro rect ctr hrect r hr
    simp only [bspSplit, treeLeaves, List.mem_singleton] at hr
    subst hr
    exact hrect
  | succ iter ih =>
    intro rect ctr hrect r hr
    unfold bspSplit at hr
    dsimp only at hr
    obtain ⟨h1, h2, h3, h4, h5, h6⟩ := hrect
    cases hshv : splitDir E s ctr rect with
    | true =>
      rw [hshv] at hr
      simp only [eq_self_iff_true, if_true] at hr
      split_ifs at hr with hsmall
      · simp only [treeLeaves, List.mem_singleton] at hr
        subst hr
        exact ⟨h1, h2, h3, h4, h5, h6⟩
      · obtain ⟨hs1, hs2⟩ := pyRandint_bounds E s (ctr + 1) msz (rect.h - msz) (by omega)
        rcases hcl : bspSplit E s msz iter
            (Rect.mk rect.x rect.y rect.w (pyRandint E s (ctr + 1) msz (rect.h - msz)))
            (ctr + 2) with ⟨lt, ctr₁⟩
        rw [hcl] at hr
        try dsimp only at hr
        rcases hcr : bspSplit E s msz iter
            (Rect.mk rect.x (rect.y + pyRandint E s (ctr + 1) msz (rect.h - msz))
              rect.w (rect.h - pyRandint E s (ctr + 1) msz (rect.h - msz)))
            ctr₁ with ⟨rt, ctr₂⟩
        rw [hcr] at hr
        simp only [treeLeaves, List.mem_append] at hr
        rcases hr with hr | hr
        · have := ih (Rect.mk rect.x rect.y rect.w
              (pyRandint E s (ctr + 1) msz (rect.h - msz))) (ctr + 2)
            ⟨h1, h2, h3, by dsimp only; omega, h5, by dsimp only; omega⟩
          rw [hcl] at this
          exact this r hr
        · have := ih (Rect.mk rect.x (rect.y + pyRandint E s (ctr + 1) msz (rect.h - msz))
              rect.w (rect.h - pyRandint E s (ctr + 1) msz (rect.h - msz))) ctr₁
            ⟨h1, by dsimp only; omega, h3, by dsimp only; omega, h5, by dsimp only; omega⟩
          rw [hcr] at this
          exact this r hr
    | false =>
      rw [hshv] at hr
      simp only [Bool.false_eq_true, if_false] at hr
      split_ifs at hr with hsmall
      · simp only [treeLeaves, List.mem_singleton] at hr
        subst hr
        exact ⟨h1, h2, h3, h4, h5, h6⟩
      · obtain ⟨hs1, hs2⟩ := pyRandint_bounds E s (ctr + 1) msz (rect.w - msz) (by omega)
        rcases hcl : bspSplit E s msz iter
            (Rect.mk rect.x rect.y (pyRandint E s (ctr + 1) msz (rect.w - msz)) rect.h)
            (ctr + 2) with ⟨lt, ctr₁⟩
        rw [hcl] at hr
        try dsimp only at hr
        rcases hcr : bspSplit E s msz iter
            (Rect.mk (rect.x + pyRandint E s (ctr + 1) msz (rect.w - msz)) rect.y
              (rect.w - pyRandint E s (ctr + 1) msz (rect.w - msz)) rect.h)
            ctr₁ with ⟨rt, ctr₂⟩
        rw [hcr] at hr
        simp only [treeLeaves, List.mem_append] at hr
        rcases hr with hr | hr
        · have := ih (Rect.mk rect.x rect.y
              (pyRandint E s (ctr + 1) msz (rect.w - msz)) rect.h) (ctr + 2)
            ⟨h1, h2, by dsimp only; omega, h4, by dsimp only; omega, h6⟩
          rw [hcl] at this
          exact this r hr
        · have := ih (Rect.mk (rect.x + pyRandint E s (ctr + 1) msz (rect.w - msz)) rect.y
              (rect.w - pyRandint E s (ctr + 1) msz (rect.w - msz)) rect.h) ctr₁
            ⟨by dsimp only; omega, h2, by dsimp only; omega, h4, by dsimp only; omega, h6⟩
          rw [hcr] at this
          exact this r hr

/-- `_create_rooms` keeps the grid dimensions, only ever writes floor, and
appends rooms that are in bounds with at least dimension 3 and a carved
floor center. -/
theorem bspCreateRooms_spec (E : Ext) (s : Int) (W H : Int) :
    ∀ (tree : BSPTree) (ctr : Nat) (tiles : Tiles) (rooms : List Rect),
      TilesDim W H tiles →
      (∀ r ∈ treeLeaves tree, RectOK W H r) →
      TilesDim W H (bspCreateRooms E s W H tree ctr tiles rooms).2.2.1 ∧
      (∀ px py, tileAt tiles px py = "floor" →
        tileAt (bspCreateRooms E s W H tree ctr tiles rooms).2.2.1 px py = "floor") ∧
      (∀ r ∈ (bspCreateRooms E s W H tree ctr tiles rooms).2.2.2,
        r ∈ rooms ∨ (RoomOK W H r ∧
          tileAt (bspCreateRooms E s W H tree ctr tiles rooms).2.2.1
            (r.x + r.w / 2) (r.y + r.h / 2) = "floor")) := by
  intro tree
  induction tree with
  | leaf rect =>
    intro ctr tiles rooms hdim hleaves
    have hrect : RectOK W H rect := hleaves rect (by simp [treeLeaves])
    rcases hlf : leafRoom E s rect ctr with ⟨room, ctr₂⟩
    have hroom : RoomOK W H room := by
      have := leafRoom_ok E s rect ctr W H hrect
      rw [hlf] at this
      exact this
    unfold bspCreateRooms
    rw [hlf]
    dsimp only
    refine ⟨carveRoom_dim W H room tiles hdim, ?_, ?_⟩
    · intro px py h
      exact carveRoom_mono W H room tiles px py h
    · intro r hrm
      rw [List.mem_append, List.mem_singleton] at hrm
      rcases hrm with hrm | rfl
      · exact Or.inl hrm
      · exact Or.inr ⟨hroom, carveRoom_center W H r tiles hdim hroom⟩
  | node rect left right ihl ihr =>
    intro ctr tiles rooms hdim hleaves
    have hlv : ∀ r ∈ treeLeaves left, RectOK W H r := by
      intro r hr
      exact hleaves r (by simp only [treeLeaves, List.mem_append]; exact Or.inl hr)
    have hrv : ∀ r ∈ treeLeaves right, RectOK W H r := by
      intro r hr
      exact hleaves r (by simp only [treeLeaves, List.mem_append]; exact Or.inr hr)
    rcases hL : bspCreateRooms E s W H left ctr tiles rooms with ⟨lt, ctr₁, tiles₁, rooms₁⟩
    have ihL := ihl ctr tiles rooms hdim hlv
    rw [hL] at ihL
    dsimp only at ihL
    obtain ⟨hdim₁, hmono₁, hrooms₁⟩ := ihL
    rcases hR : bspCreateRooms E s W H right ctr₁ tiles₁ rooms₁ with ⟨rt, ctr₂, tiles₂, rooms₂⟩
    have ihR := ihr ctr₁ tiles₁ rooms₁ hdim₁ hrv
    rw [hR] at ihR
    dsimp only at ihR
    obtain ⟨hdim₂, hmono₂, hrooms₂⟩ := ihR
    unfold bspCreateRooms
    rw [hL]
    dsimp only
    rw [hR]
    dsimp only
    refine ⟨hdim₂, ?_, ?_⟩
    · intro px py h
      exact hmono₂ px py (hmono₁ px py h)
    · intro r hrm
      rcases hrooms₂ r hrm with hin | ⟨hok, hfl⟩
      · rcases hrooms₁ r hin with hin' | ⟨hok, hfl⟩
        · exact Or.inl hin'
        · exact Or.inr ⟨hok, hmono₂ _ _ hfl⟩
      · exact Or.inr ⟨hok, hfl⟩

/-- `_connect_rooms` only carves floor, so floor tiles persist. -/
theorem bspConnectRooms_mono (E : Ext) (s : Int) (W H : Int) :
    ∀ (rt : RoomTree) (ctr : Nat) (tiles : Tiles) (px py : Int),
      tileAt tiles px py = "floor" →
      tileAt (bspConnectRooms E s W H rt ctr tiles).2.2 px py = "floor" := by
  intro rt
  induction rt with
  | leaf room => intro ctr tiles px py h; exact h
  | node left right ihl ihr =>
    intro ctr tiles px py h
    unfold bspConnectRooms
    rcases hL : bspConnectRooms E s W H left ctr tiles with ⟨lr, ctr₁, tiles₁⟩
    have hfl₁ : tileAt tiles₁ px py = "floor" := by
      have := ihl ctr tiles px py h
      rw [hL] at this
      exact this
    dsimp only
    rcases hR : bspConnectRooms E s W H right ctr₁ tiles₁ with ⟨rr, ctr₂, tiles₂⟩
    have hfl₂ : tileAt tiles₂ px py = "floor" := by
      have := ihr ctr₁ tiles₁ px py hfl₁
      rw [hR] at this
      exact this
    dsimp only
    split_ifs
    · exact carveVCorridor_mono W H _ _ _ px py _ (carveHCorridor_mono W H _ _ _ px py _ hfl₂)
    · exact carveHCorridor_mono W H _ _ _ px py _ (carveVCorridor_mono W H _ _ _ px py _ hfl₂)

/-- **C8 (amended).** For every seed (raw stream) and every width and
height at least 4, every room of the generated dungeon lies fully within
the `width × height` grid, has both dimensions at least 3, and its
integer-division center tile is a floor tile of the returned grid.  (For
width or height below 4 the clamped minimum room size 3 no longer fits —
see the counterexample.) -/
theorem dungeon_rooms_in_bounds (E : Ext) (seed : Int) (W H : Int)
    (hW : 4 ≤ W) (hH : 4 ≤ H) :
    ∀ r ∈ (bspGenerate E W H seed).rooms,
      0 ≤ r.x ∧ 0 ≤ r.y ∧ r.x + r.w ≤ W ∧ r.y + r.h ≤ H ∧ 3 ≤ r.w ∧ 3 ≤ r.h ∧
      tileAt (bspGenerate E W H seed).tiles (r.x + r.w / 2) (r.y + r.h / 2) =
        "floor" := by
  intro r hr
  unfold bspGenerate at hr ⊢
  rcases hsp : bspSplit E seed 6 4 (Rect.mk 0 0 W H) 0 with ⟨tree, ctr₁⟩
  rw [hsp] at hr
  try dsimp only at hr
  try dsimp only
  have hdim : TilesDim W H (List.replicate H.toNat (List.replicate W.toNat "wall")) := by
    refine ⟨List.length_replicate _ _, ?_⟩
    intro row hrow
    rw [List.eq_of_mem_replicate hrow]
    exact List.length_replicate _ _
  have hleaves : ∀ rc ∈ treeLeaves tree, RectOK W H rc := by
    have := bspSplit_leaves_ok E seed 6 (by omega) W H 4 (Rect.mk 0 0 W H) 0
      ⟨by dsimp only; omega, by dsimp only; omega, by dsimp only; omega,
       by dsimp only; omega, by dsimp only; omega, by dsimp only; omega⟩
    rw [hsp] at this
    exact this
  rcases hcr : bspCreateRooms E seed W H tree ctr₁
      (List.replicate H.toNat (List.replicate W.toNat "wall")) [] with
    ⟨rtree, ctr₂, tiles₁, rooms⟩
  have hspec := bspCreateRooms_spec E seed W H tree ctr₁
    (List.replicate H.toNat (List.replicate W.toNat "wall")) [] hdim hleaves
  rw [hcr] at hspec
  try dsimp only at hspec
  obtain ⟨hdim₁, _, hrooms⟩ := hspec
  rw [hcr] at hr
  try dsimp only at hr
  try dsimp only
  rcases hcn : bspConnectRooms E seed W H rtree ctr₂ tiles₁ with ⟨rep, ctr₃, tiles₂⟩
  try dsimp only
  rcases hrooms r hr with hin | ⟨⟨k1, k2, k3, k4, k5, k6⟩, hfl⟩
  · exact absurd hin (by simp)
  · refine ⟨k1, k2, k3, k4, k5, k6, ?_⟩
    have := bspConnectRooms_mono E seed W H rtree ctr₂ tiles₁
      (r.x + r.w / 2) (r.y + r.h / 2) hfl
    rw [hcn] at this
    exact this

/-- **C8 counterexample.** The generator accepts `width = height = 1`, but
the clamped minimum room dimension 3 then produces a room crossing the
right edge (`x + w = 4 > 1`), refuting the claim for all accepted sizes. -/
theorem dungeon_rooms_counterexample :
    ∃ r ∈ (bspGenerate envA 1 1 0).rooms, ¬(r.x + r.w ≤ 1) := by
  decide

/-- **C8 witness.** A 10×10 dungeon under environment A: its single room
is `(1,1,8,8)` and the amended bounds theorem applies to it. -/
theorem dungeon_rooms_in_bounds_witness :
    (bspGenerate envA 10 10 0).rooms = [Rect.mk 1 1 8 8] ∧
    ∀ r ∈ (bspGenerate envA 10 10 0).rooms,
      0 ≤ r.x ∧ 0 ≤ r.y ∧ r.x + r.w ≤ 10 ∧ r.y + r.h ≤ 10 ∧ 3 ≤ r.w ∧ 3 ≤ r.h ∧
      tileAt (bspGenerate envA 10 10 0).tiles (r.x + r.w / 2) (r.y + r.h / 2) =
        "floor" :=
  ⟨by decide, dungeon_rooms_in_bounds envA 0 10 10 (by decide) (by decide)⟩

end ZEngine
